import Mathlib

/-!
# mailbox.Listener (tcp_noise_listner.go)

A model of the noise listener of package `mailbox`: the accept loop `listen`,
the handshake goroutine `doHandshake`, the outcome hand-off `acceptConn` /
`rejectConn` / `Accept`, and `Close`.

Goroutine code is written as a tree of operations (`Prog`): every channel
statement, `select`, and call into `net` or the noise engine is one node, and
the value it yields (which `select` case ran, what the call returned) picks
the branch.  `Prog.exec` runs one goroutine to its return against the results
its operations yield; `State.step` interleaves the goroutines of a listener
and the calls of `Accept` and `Close` over the shared channels.  Each
operation is one atomic step.
-/

namespace Mailbox

/-! ## Values -/

/-- defaultHandshakes is the maximum number of handshakes that can be done in
parallel. -/
def defaultHandshakes : Nat := 1000

/-- A non-nil Go `error`; `Error()` is `msg`. -/
structure GoError where
  msg : String
deriving DecidableEq, Repr

/-- A Go `error` interface value: `none` is `nil`. -/
abbrev error := Option GoError

/-- The function `errors.New`. -/
def errorsNew (text : String) : GoError := ⟨text⟩

/-- A raw connection (`net.Conn`) handed out by `l.tcp.Accept()`;
`remoteAddr` is `conn.RemoteAddr().String()`. -/
structure RawConn where
  id : Nat
  remoteAddr : String
deriving DecidableEq, Repr

/-- The arguments `NewConnData` is called with in `doHandshake`. -/
structure ConnData where
  localKey : Nat
  remoteKey : Option Nat
  passphrase : List Nat
  authData : List Nat
deriving DecidableEq, Repr

/-- The call `NewConnData(localKey, remoteKey, passphrase, authData, nil, nil)`. -/
def NewConnData (localKey : Nat) (remoteKey : Option Nat)
    (passphrase authData : List Nat) : ConnData :=
  ⟨localKey, remoteKey, passphrase, authData⟩

/-- The struct `BrontideMachineConfig` as filled in by `doHandshake`.  The
handshake pattern and the version bounds are read from declarations outside
this file and do not vary between calls; they are left out. -/
structure BrontideMachineConfig where
  Initiator : Bool
  ConnData : ConnData
deriving DecidableEq, Repr

/-- A handshake engine returned by `NewBrontideMachine`. -/
structure Machine where
  id : Nat
deriving DecidableEq, Repr

/-- The struct `NoiseConn` with the fields `doHandshake` sets. -/
structure NoiseConn where
  conn : RawConn
  noise : Machine
deriving DecidableEq, Repr

/-- maybeConn holds either a brontide connection or an error returned from the
handshake.  `conn` is a `*NoiseConn`, `none` being the nil pointer. -/
structure maybeConn where
  conn : Option NoiseConn
  err : error
deriving DecidableEq, Repr

/-- A `net.Conn` interface value as returned by `Accept`: the nil interface, or
a `*NoiseConn` (which may itself be a nil pointer) stored in the interface. -/
inductive NetConn where
  | nil
  | ofNoiseConn (p : Option NoiseConn)
deriving DecidableEq, Repr

/-- The argument of `SetReadDeadline`: `time.Now().Add(handshakeReadTimeout)`
or the zero `time.Time{}`, which clears the deadline. -/
inductive Deadline where
  | nowPlusHandshakeReadTimeout
  | zero
deriving DecidableEq, Repr

/-! ## Operations of a goroutine -/

/-- A channel communication of the listener. -/
inductive Comm where
  /-- The receive `<-l.handshakeSema`. -/
  | recvSema
  /-- The send `l.handshakeSema <- struct{}{}`. -/
  | sendSema
  /-- The receive `<-l.conns`. -/
  | recvConns
  /-- The send `l.conns <- m`. -/
  | sendConns (m : maybeConn)
  /-- The receive `<-l.quit`. -/
  | recvQuit
deriving DecidableEq, Repr

/-- One operation a goroutine performs on the world outside its own locals. -/
inductive Op where
  /-- A `select` over `cases`, with a `default:` clause iff `hasDefault`. -/
  | select (cases : List Comm) (hasDefault : Bool)
  /-- A channel statement outside a `select`. -/
  | comm (c : Comm)
  /-- The statement `close(l.quit)`. -/
  | closeQuit
  /-- The call `l.tcp.Accept()`. -/
  | tcpAccept
  /-- The call `l.tcp.Close()`. -/
  | tcpClose
  /-- The statement `go l.doHandshake(conn)`. -/
  | go (conn : RawConn)
  /-- The call `NewBrontideMachine(cfg)`. -/
  | newBrontideMachine (cfg : BrontideMachineConfig)
  /-- The call `conn.SetReadDeadline(t)`. -/
  | setReadDeadline (conn : RawConn) (t : Deadline)
  /-- The call `noise.DoHandshake(conn)`. -/
  | doHandshake (noise : Machine) (conn : RawConn)
  /-- The call `conn.Close()`. -/
  | connClose (conn : RawConn)
deriving DecidableEq, Repr

/-- What an operation yields to the goroutine that performed it. -/
inductive Resp where
  /-- A statement without a result completed, or a call returned a nil error. -/
  | ok
  /-- A `select` ran its `i`-th case. -/
  | chose (i : Nat)
  /-- A `select` ran its `i`-th case, a receive from `l.conns` that got `m`. -/
  | recvd (i : Nat) (m : maybeConn)
  /-- A `select` ran its `default:` clause. -/
  | dflt
  /-- The call returned a non-nil error. -/
  | err (e : GoError)
  /-- The call `l.tcp.Accept()` returned a connection and a nil error. -/
  | conn (c : RawConn)
  /-- The call `NewBrontideMachine` returned an engine and a nil error. -/
  | machine (m : Machine)
deriving DecidableEq, Repr

/-- The shape of result each operation can yield. -/
def Op.valid : Op → Resp → Bool
  | .select cs _, .chose i => cs[i]? != none && cs[i]? != some .recvConns
  | .select cs _, .recvd i _ => cs[i]? == some .recvConns
  | .select _ d, .dflt => d
  | .comm c, .ok => c != .recvConns
  | .closeQuit, .ok => true
  | .tcpAccept, .conn _ => true
  | .tcpAccept, .err _ => true
  | .tcpClose, .ok => true
  | .tcpClose, .err _ => true
  | .go _, .ok => true
  | .newBrontideMachine _, .machine _ => true
  | .newBrontideMachine _, .err _ => true
  | .setReadDeadline _ _, .ok => true
  | .setReadDeadline _ _, .err _ => true
  | .doHandshake _ _, .ok => true
  | .doHandshake _ _, .err _ => true
  | .connClose _, .ok => true
  | .connClose _, .err _ => true
  | _, _ => false

/-- An operation together with what it yielded. -/
structure Event where
  op : Op
  resp : Resp
deriving DecidableEq, Repr

/-- Code of one goroutine: return `a`, or perform `o` and continue with what
it yields. -/
inductive Prog (α : Type) where
  | ret (a : α)
  | vis (o : Op) (k : Resp → Prog α)

/-- Sequencing of goroutine code. -/
def Prog.bind {α β : Type} : Prog α → (α → Prog β) → Prog β
  | .ret a, f => f a
  | .vis o k, f => .vis o (fun r => (k r).bind f)

instance : Monad Prog where
  pure := Prog.ret
  bind := Prog.bind

/-- Perform one operation and return what it yields. -/
def perform (o : Op) : Prog Resp := .vis o .ret

/-- A function body `body` run under `defer d`: `d` runs when `body` returns,
on every return path. -/
def Prog.defer {α : Type} (d : Prog Unit) (body : Prog α) : Prog α :=
  body.bind (fun a => d.bind (fun _ => .ret a))

/-- The result of a call that returns only an error. -/
def Resp.toError : Resp → error
  | .err e => some e
  | _ => none

/-- The call `l.tcp.Accept()`, returning `(net.Conn, error)`. -/
def tcpAccept : Prog (Except GoError RawConn) :=
  .vis .tcpAccept fun
    | .conn c => .ret (.ok c)
    | .err e => .ret (.error e)
    | _ => .ret (.error ⟨""⟩)

/-- The call `NewBrontideMachine(cfg)`, returning `(*Machine, error)`. -/
def NewBrontideMachine (cfg : BrontideMachineConfig) : Prog (Except GoError Machine) :=
  .vis (.newBrontideMachine cfg) fun
    | .machine m => .ret (.ok m)
    | .err e => .ret (.error e)
    | _ => .ret (.error ⟨""⟩)

/-- The call `conn.SetReadDeadline(t)`, returning an `error`. -/
def SetReadDeadline (conn : RawConn) (t : Deadline) : Prog error :=
  .vis (.setReadDeadline conn t) fun r => .ret r.toError

/-- The call `noise.DoHandshake(conn)`, returning an `error`. -/
def DoHandshake (noise : Machine) (conn : RawConn) : Prog error :=
  .vis (.doHandshake noise conn) fun r => .ret r.toError

/-- The call `conn.Close()`, whose result the callers here discard. -/
def connClose (conn : RawConn) : Prog Unit :=
  .vis (.connClose conn) fun _ => .ret ()

/-- The call `l.tcp.Close()`, returning an `error`. -/
def tcpClose : Prog error :=
  .vis .tcpClose fun r => .ret r.toError

/-! ## The listener -/

/-- The struct `Listener`.  `tcpClosed` is the state of `l.tcp`,
`handshakeSema` the number of values buffered in the channel of that name
(capacity `defaultHandshakes`), `quit` whether the channel `l.quit` has been
closed.  The channel `l.conns` is unbuffered and has no state of its own. -/
structure Listener where
  localStatic : Nat
  tcpClosed : Bool
  passphrase : List Nat
  authData : List Nat
  handshakeSema : Nat
  quit : Bool
deriving DecidableEq, Repr

/-- rejectedConnErr is a helper function that prepends the remote address of the
failed connection attempt to the original error message
(`fmt.Errorf("unable to accept connection from %v: %v", remoteAddr, err)`). -/
def rejectedConnErr (err : error) (remoteAddr : String) : error :=
  some ⟨"unable to accept connection from " ++ remoteAddr ++ ": " ++
    (match err with
     | some e => e.msg
     | none => "<nil>")⟩

/-- acceptConn returns a connection that successfully performed a handshake. -/
def acceptConn (conn : Option NoiseConn) : Prog Unit := do
  -- select { case l.conns <- maybeConn{conn: conn}: case <-l.quit: }
  let _ ← perform (.select [.sendConns ⟨conn, none⟩, .recvQuit] false)

/-- rejectConn returns any errors encountered during connection or handshake. -/
def rejectConn (err : error) : Prog Unit := do
  -- select { case l.conns <- maybeConn{err: err}: case <-l.quit: }
  let _ ← perform (.select [.sendConns ⟨none, err⟩, .recvQuit] false)

/-- doHandshake asynchronously performs the brontide handshake, so that it does
not block the main accept loop. -/
def doHandshake (l : Listener) (conn : RawConn) : Prog Unit :=
  -- defer func() { l.handshakeSema <- struct{}{} }()
  Prog.defer (do let _ ← perform (.comm .sendSema)) do
    -- select { case <-l.quit: return; default: }
    match ← perform (.select [.recvQuit] true) with
    | .dflt => pure ()
    | _ => return
    let remoteAddr := conn.remoteAddr
    let connData := NewConnData l.localStatic none l.passphrase l.authData
    match ← NewBrontideMachine { Initiator := false, ConnData := connData } with
    | .error err =>
      rejectConn (rejectedConnErr (some err) remoteAddr)
      return
    | .ok noise =>
    let brontideConn : NoiseConn := { conn := conn, noise := noise }
    let err ← SetReadDeadline conn .nowPlusHandshakeReadTimeout
    if err != none then
      connClose brontideConn.conn
      rejectConn (rejectedConnErr err remoteAddr)
      return
    let err ← DoHandshake brontideConn.noise conn
    if err != none then
      connClose brontideConn.conn
      rejectConn (rejectedConnErr err remoteAddr)
      return
    -- select { case <-l.quit: return; default: }
    match ← perform (.select [.recvQuit] true) with
    | .dflt => pure ()
    | _ => return
    let err ← SetReadDeadline conn .zero
    if err != none then
      connClose brontideConn.conn
      rejectConn (rejectedConnErr err remoteAddr)
      return
    acceptConn (some brontideConn)

/-- One pass through the body of the `for` loop of `listen`: `true` when the
loop goes round again (`continue`, or the end of the body), `false` on
`return`. -/
def listen : Prog Bool := do
  -- select { case <-l.handshakeSema: case <-l.quit: return }
  match ← perform (.select [.recvSema, .recvQuit] false) with
  | .chose 0 => pure ()
  | _ => return false
  match ← tcpAccept with
  | .error err =>
    rejectConn (some err)
    let _ ← perform (.comm .sendSema)
    return true
  | .ok conn =>
    let _ ← perform (.go conn)
    return true

/-- Accept waits for and returns the next connection to the listener. -/
def Accept : Prog (NetConn × error) := do
  -- select { case result := <-l.conns: ... case <-l.quit: ... }
  match ← perform (.select [.recvConns, .recvQuit] false) with
  | .recvd _ result => return (.ofNoiseConn result.conn, result.err)
  | _ => return (.nil, some (errorsNew "brontide connection closed"))

/-- Close closes the listener. -/
def Close : Prog error := do
  -- select { case <-l.quit: default: close(l.quit) }
  match ← perform (.select [.recvQuit] true) with
  | .dflt => let _ ← perform .closeQuit
  | _ => pure ()
  tcpClose

/-! ## One goroutine on its own -/

/-- Follow `p` along the results `rs`, one per operation: the operations
performed and the code left to run.  `none` when a result does not fit the
operation that yielded it, or there are more results than operations. -/
def Prog.run {α : Type} : Prog α → List Resp → Option (List Event × Prog α)
  | p, [] => some ([], p)
  | .ret _, _ :: _ => none
  | .vis o k, r :: rs =>
    if o.valid r then
      match (k r).run rs with
      | some (es, p) => some (⟨o, r⟩ :: es, p)
      | none => none
    else none

/-- The value a goroutine returned, once it has. -/
def Prog.result {α : Type} : Prog α → Option α
  | .ret a => some a
  | .vis _ _ => none

/-- The next operation of a goroutine, `none` once it has returned. -/
def Prog.head {α : Type} : Prog α → Option Op
  | .ret _ => none
  | .vis o _ => some o

/-- The code after the next operation has yielded `r`. -/
def Prog.next {α : Type} : Prog α → Resp → Prog α
  | .ret a, _ => .ret a
  | .vis _ k, r => k r

/-! ## The goroutines of a listener, interleaved -/

/-- What a goroutine of the listener runs. -/
inductive Code where
  /-- The goroutine started by `go brontideListener.listen()`, inside one pass
  of its `for` loop. -/
  | listen (p : Prog Bool)
  /-- A goroutine started by `go l.doHandshake(conn)`. -/
  | handshake (conn : RawConn) (p : Prog Unit)

/-- The next operation of the goroutine, `none` once it has returned. -/
def Code.head : Code → Option Op
  | .listen p => p.head
  | .handshake _ p => p.head

/-- The goroutine after its next operation has yielded `r`.  When a pass of
the `for` loop of `listen` ends without `return`, the next pass begins. -/
def Code.next : Code → Resp → Code
  | .listen p, r =>
    match (p.next r).result with
    | some true => .listen Mailbox.listen
    | _ => .listen (p.next r)
  | .handshake c p, r => .handshake c (p.next r)

/-- A goroutine and the operations it has performed so far. -/
structure Goroutine where
  code : Code
  log : List Event

/-- The goroutine after its next operation `o` has yielded `r`. -/
def Goroutine.advance (g : Goroutine) (o : Op) (r : Resp) : Goroutine :=
  { code := g.code.next r, log := g.log ++ [⟨o, r⟩] }

/-- A listener with its goroutines.  `panicked` is set by a `close` of a closed
channel, which ends the program; `quitCloses` counts the executions of
`close(l.quit)`. -/
structure State where
  l : Listener
  panicked : Bool
  quitCloses : Nat
  goroutines : List Goroutine

/-- Whether a communication can proceed on its own.  A send to or a receive
from the unbuffered `l.conns` needs a partner: see `State.handoff`. -/
def Comm.ready (l : Listener) : Comm → Bool
  | .recvSema => 0 < l.handshakeSema
  | .sendSema => l.handshakeSema < defaultHandshakes
  | .recvQuit => l.quit
  | .recvConns => false
  | .sendConns _ => false

/-- The listener after the communication. -/
def Comm.apply (l : Listener) : Comm → Listener
  | .recvSema => { l with handshakeSema := l.handshakeSema - 1 }
  | .sendSema => { l with handshakeSema := l.handshakeSema + 1 }
  | _ => l

/-- Whether operation `o` can yield `r` at listener `l`: a channel statement
that is not ready blocks, a `default:` clause runs only when no case is ready,
a closed `l.tcp` accepts nothing and reports an error when closed again. -/
def Op.enabled (l : Listener) : Op → Resp → Bool
  | .select cs _, .chose i =>
    match cs[i]? with
    | some c => c.ready l
    | none => false
  | .select cs _, .dflt => cs.all (fun c => !c.ready l)
  | .select _ _, _ => false
  | .comm c, _ => c.ready l
  | .tcpAccept, .conn _ => !l.tcpClosed
  | .tcpClose, .ok => !l.tcpClosed
  | _, _ => true

/-- The listener after operation `o` has yielded `r`. -/
def Op.effect (l : Listener) : Op → Resp → Listener
  | .select cs _, .chose i =>
    match cs[i]? with
    | some c => c.apply l
    | none => l
  | .comm c, _ => c.apply l
  | .closeQuit, _ => { l with quit := true }
  | .tcpClose, _ => { l with tcpClosed := true }
  | _, _ => l

/-- The goroutines operation `o` starts. -/
def Op.spawned (l : Listener) : Op → List Goroutine
  | .go c => [⟨.handshake c (Mailbox.doHandshake l c), []⟩]
  | _ => []

/-- The state after operation `o` has yielded `r`, `none` when `o` cannot
yield `r` in state `s`.  A `close(l.quit)` of the closed channel panics. -/
def State.exec (s : State) (o : Op) (r : Resp) : Option State :=
  if o.valid r && o.enabled s.l r then
    some { l := o.effect s.l r,
           panicked := s.panicked || (o == .closeQuit && s.l.quit),
           quitCloses := s.quitCloses + (if o = .closeQuit then 1 else 0),
           goroutines := s.goroutines ++ o.spawned s.l }
  else none

/-- The first send on `l.conns` among the cases `cs` of a `select`, `i` being
the position of the head of `cs` in the `select`. -/
def offerIn : List Comm → Nat → Option (Resp × maybeConn)
  | [], _ => none
  | .sendConns m :: _, i => some (.chose i, m)
  | _ :: cs, i => offerIn cs (i + 1)

/-- The send on `l.conns` an operation is ready to make: what the send yields
to the sender, and the value sent. -/
def Op.offer : Op → Option (Resp × maybeConn)
  | .select cs _ => offerIn cs 0
  | .comm (.sendConns m) => some (.ok, m)
  | _ => none

/-- The outcome goroutine `g` is offering on `l.conns`, if its next operation
is a send there. -/
def Goroutine.offer (g : Goroutine) : Option maybeConn :=
  match g.code.head with
  | some o => o.offer.map (fun x => x.2)
  | none => none

/-- Goroutine `i` executes its next operation, which yields `r`. -/
def State.run (s : State) (i : Nat) (r : Resp) : Option State :=
  match s.goroutines[i]? with
  | none => none
  | some g =>
    match g.code.head with
    | none => none
    | some o =>
      match s.exec o r with
      | some s1 => some { s1 with goroutines := s1.goroutines.set i (g.advance o r) }
      | none => none

/-- Goroutine `i` completes the send of `m` on `l.conns` that its next
operation offers (the other half of a receive by a caller of `Accept`).
Both ends of the hand-off are a `select` with a `case <-l.quit`: the close of
`l.quit` wakes every goroutine blocked in such a `select`, which then runs
that case, and a `select` entered once `l.quit` is closed finds that case
ready and nobody waiting on `l.conns`.  So a send on `l.conns` completes only
while `l.quit` is open. -/
def State.handoff (s : State) (i : Nat) (m : maybeConn) : Option State :=
  if s.l.quit then none else
  match s.goroutines[i]? with
  | none => none
  | some g =>
    match g.code.head with
    | none => none
    | some o =>
      match o.offer with
      | some (r, m1) =>
        if m1 = m then some { s with goroutines := s.goroutines.set i (g.advance o r) }
        else none
      | none => none

/-- A caller outside the listener's goroutines runs `p` to its return without
interruption.  Each operation yields the next result of `rs`; a receive from
`l.conns` takes its value from the goroutine whose index comes with the
result.  Returns the value returned (`none` if the call panicked), the
operations performed and the state left; the whole is `none` when an
operation cannot yield its result (the call blocks or the results do not fit
the code). -/
def State.call {α : Type} (s : State) :
    Prog α → List (Resp × Nat) → Option (Option α × List Event × State)
  | .ret a, [] => some (some a, [], s)
  | .ret _, _ :: _ => none
  | .vis _ _, [] => none
  | .vis o k, (r, i) :: rs =>
    match (match r with
           | .recvd _ m => if o.valid r then s.handoff i m else none
           | _ => s.exec o r) with
    | none => none
    | some s1 =>
      if s1.panicked then some (none, [⟨o, r⟩], s1) else
      match State.call s1 (k r) rs with
      | some (a, es, s2) => some (a, ⟨o, r⟩ :: es, s2)
      | none => none

/-- What happens next at a listener. -/
inductive Action where
  /-- Goroutine `i` executes its next operation, which yields `r`. -/
  | run (i : Nat) (r : Resp)
  /-- A caller runs `Accept()`; its `select` yields `r`, receiving from
  goroutine `sender` if it receives. -/
  | accept (r : Resp) (sender : Nat)
  /-- A caller runs `Close()`, its operations yielding `rs`. -/
  | close (rs : List Resp)

/-- One step of the listener; a program that has panicked takes none. -/
def State.step (s : State) (a : Action) : Option State :=
  if s.panicked then none else
  match a with
  | .run i r => s.run i r
  | .accept r i => (s.call Accept [(r, i)]).map (fun x => x.2.2)
  | .close rs => (s.call Close (rs.map (fun r => (r, 0)))).map (fun x => x.2.2)

/-- Several steps of the listener, one after the other. -/
def State.steps (s : State) : List Action → Option State
  | [] => some s
  | a :: as =>
    match s.step a with
    | some s1 => s1.steps as
    | none => none

/-- NewListener returns a new net.Listener which enforces the Brontide scheme
during both initial connection establishment and data transfer.  `resolved`
and `listening` are the errors returned by `net.ResolveTCPAddr("tcp",
listenAddr)` and `net.ListenTCP("tcp", addr)`. -/
def NewListener (passphrase : List Nat) (localStatic : Nat) (_listenAddr : String)
    (authData : List Nat) (resolved listening : error) : Except GoError State :=
  match resolved with
  | some err => .error err
  | none =>
  match listening with
  | some err => .error err
  | none =>
  let brontideListener : Listener :=
    { localStatic := localStatic, tcpClosed := false, handshakeSema := 0, quit := false,
      passphrase := passphrase, authData := authData }
  -- for i := 0; i < defaultHandshakes; i++ { handshakeSema <- struct{}{} }
  let brontideListener :=
    (List.range defaultHandshakes).foldl (fun l _ => Comm.apply l .sendSema) brontideListener
  -- go brontideListener.listen()
  .ok { l := brontideListener, panicked := false, quitCloses := 0,
        goroutines := [⟨.listen listen, []⟩] }

/-- A state returned by a call of `NewListener` that reports no error. -/
def State.initial (s : State) : Prop :=
  ∃ (passphrase : List Nat) (localStatic : Nat) (listenAddr : String) (authData : List Nat),
    NewListener passphrase localStatic listenAddr authData none none = Except.ok s

/-- The states a listener can be in: those `NewListener` returns and those a
step leads to from there. -/
inductive Reachable : State → Prop where
  | init (s : State) : s.initial → Reachable s
  | step (s s1 : State) (a : Action) : Reachable s → s.step a = some s1 → Reachable s1

/-! ## Permits -/

/-- The `select` at the top of the `for` loop of `listen`. -/
abbrev acquireOp : Op := .select [.recvSema, .recvQuit] false

/-- The `select` of the two shutdown checks of `doHandshake` and of `Close`. -/
abbrev pollQuitOp : Op := .select [.recvQuit] true

/-- The `select` of `acceptConn` and `rejectConn`. -/
abbrev publishOp (m : maybeConn) : Op := .select [.sendConns m, .recvQuit] false

/-- The `select` of `Accept`. -/
abbrev acceptOp : Op := .select [.recvConns, .recvQuit] false

/-- The call of `NewBrontideMachine` in `doHandshake`. -/
abbrev newMachineOp (l : Listener) : Op :=
  .newBrontideMachine ⟨false, NewConnData l.localStatic none l.passphrase l.authData⟩

/-- The number of permits a goroutine holds, 0 or 1.  A handshake goroutine
holds the permit of its connection until it returns.  The accept loop holds
one from the `case <-l.handshakeSema` of its `select` until it has sent it
back or started the handshake goroutine, that is, whenever it is not at that
`select` and has not returned. -/
def Goroutine.permits (g : Goroutine) : Nat :=
  match g.code with
  | .handshake _ p => if p.head.isSome then 1 else 0
  | .listen p =>
    match p.head with
    | none => 0
    | some o => if o = acquireOp then 0 else 1

/-- The permits held by the accept loop's current attempt and by the
handshake goroutines in flight. -/
def State.permitsHeld (s : State) : Nat :=
  (s.goroutines.map Goroutine.permits).sum

/-- A handshake goroutine that has not returned. -/
def Goroutine.inFlight (g : Goroutine) : Bool :=
  match g.code with
  | .handshake _ p => p.head.isSome
  | .listen _ => false

/-- The number of handshake goroutines in flight. -/
def State.inFlight (s : State) : Nat :=
  (s.goroutines.filter Goroutine.inFlight).length

/-! ## One goroutine, run to its return -/

/-- Run `p` to its return, the `n`-th operation performed yielding
`env n`: the operations performed, and the value returned. -/
def Prog.exec {α : Type} (env : Nat → Resp) : Prog α → Nat → List Event × α
  | .ret a, _ => ([], a)
  | .vis o k, n =>
    let out := (k (env n)).exec env (n + 1)
    (⟨o, env n⟩ :: out.1, out.2)

/-- The operation is a `select` that ran a `case <-l.quit`: the goroutine
observed the shutdown signal. -/
def Event.observesQuit (e : Event) : Bool :=
  match e.op, e.resp with
  | .select cs _, .chose i => cs[i]? == some .recvQuit
  | _, _ => false

/-- The outcome `acceptConn` or `rejectConn` was called with, when the
operation is the `select` of one of them. -/
def Event.published (e : Event) : Option maybeConn :=
  e.op.offer.map (fun x => x.2)

/-- The outcomes published in a log, in order. -/
def published (log : List Event) : List maybeConn :=
  log.filterMap Event.published

/-- The connections `acceptConn` was called with in a log. -/
def acceptConnCalls (log : List Event) : List NoiseConn :=
  log.filterMap fun e =>
    match e.op with
    | .select [.sendConns ⟨some c, none⟩, .recvQuit] false => some c
    | _ => none

/-- The errors `rejectConn` was called with in a log. -/
def rejectConnCalls (log : List Event) : List GoError :=
  log.filterMap fun e =>
    match e.op with
    | .select [.sendConns ⟨none, some err⟩, .recvQuit] false => some err
    | _ => none

/-- The operation is `conn.Close()` on connection `c`. -/
def Event.closes (c : RawConn) (e : Event) : Bool :=
  e.op == .connClose c

/-- The operation is the send `l.handshakeSema <- struct{}{}`. -/
def Event.releases (e : Event) : Bool :=
  e.op == .comm .sendSema

/-- The deadlines set on `c` in a log, in order. -/
def deadlinesSet (c : RawConn) (log : List Event) : List Deadline :=
  log.filterMap fun e =>
    match e.op with
    | .setReadDeadline c1 t => if c1 = c then some t else none
    | _ => none
/-- The operations of a log before the first call of `acceptConn` or
`rejectConn`. -/
def beforePublish (log : List Event) : List Event :=
  log.takeWhile (fun e => e.published.isNone)

/-- The outcome a call of `acceptConn` or `rejectConn` handed to a caller of
`Accept`: the operation is the `select` of one of them and it ran its send on
`l.conns`. -/
def Event.handedOff (e : Event) : Option maybeConn :=
  match e.op.offer with
  | some (r, m) => if e.resp = r then some m else none
  | none => none

/-- The outcome a call of `acceptConn` or `rejectConn` dropped: the operation
is the `select` of one of them and it ran its `case <-l.quit`. -/
def Event.dropped (e : Event) : Option maybeConn :=
  match e.published with
  | some m => if e.observesQuit then some m else none
  | none => none

/-- The outcomes handed to callers of `Accept` in a log, in order. -/
def handedOff (log : List Event) : List maybeConn :=
  log.filterMap Event.handedOff

/-- The outcomes dropped on `case <-l.quit` in a log, in order. -/
def dropped (log : List Event) : List maybeConn :=
  log.filterMap Event.dropped

/-- The listener after the operations of a log. -/
def Listener.after (l : Listener) (log : List Event) : Listener :=
  log.foldl (fun l e => e.op.effect l e.resp) l

/-! ## Paths through the code -/

/-- `P` holds of the log and the result of every run of `p` whose operations
yield results that fit them, the run starting after the operations `acc`. -/
def Prog.AllRuns {α : Type} (P : List Event → α → Prop) : Prog α → List Event → Prop
  | .ret a, acc => P acc a
  | .vis o k, acc => ∀ r, o.valid r = true → (k r).AllRuns P (acc ++ [⟨o, r⟩])

/-- The logs of the runs of `doHandshake l conn`, one constructor for each
path through its body. -/
inductive HandshakeLog (l : Listener) (conn : RawConn) : List Event → Prop where
  | quitAtStart : HandshakeLog l conn
      [⟨pollQuitOp, .chose 0⟩, ⟨.comm .sendSema, .ok⟩]
  | machineError (e : GoError) (r : Resp) (hr : r = .chose 0 ∨ r = .chose 1) :
      HandshakeLog l conn
      [⟨pollQuitOp, .dflt⟩, ⟨newMachineOp l, .err e⟩,
       ⟨publishOp ⟨none, rejectedConnErr (some e) conn.remoteAddr⟩, r⟩,
       ⟨.comm .sendSema, .ok⟩]
  | deadlineError (noise : Machine) (e : GoError) (rc r : Resp)
      (hrc : rc = .ok ∨ ∃ e1, rc = .err e1) (hr : r = .chose 0 ∨ r = .chose 1) :
      HandshakeLog l conn
      [⟨pollQuitOp, .dflt⟩, ⟨newMachineOp l, .machine noise⟩,
       ⟨.setReadDeadline conn .nowPlusHandshakeReadTimeout, .err e⟩,
       ⟨.connClose conn, rc⟩,
       ⟨publishOp ⟨none, rejectedConnErr (some e) conn.remoteAddr⟩, r⟩,
       ⟨.comm .sendSema, .ok⟩]
  | handshakeError (noise : Machine) (e : GoError) (rc r : Resp)
      (hrc : rc = .ok ∨ ∃ e1, rc = .err e1) (hr : r = .chose 0 ∨ r = .chose 1) :
      HandshakeLog l conn
      [⟨pollQuitOp, .dflt⟩, ⟨newMachineOp l, .machine noise⟩,
       ⟨.setReadDeadline conn .nowPlusHandshakeReadTimeout, .ok⟩,
       ⟨.doHandshake noise conn, .err e⟩,
       ⟨.connClose conn, rc⟩,
       ⟨publishOp ⟨none, rejectedConnErr (some e) conn.remoteAddr⟩, r⟩,
       ⟨.comm .sendSema, .ok⟩]
  | quitAfterHandshake (noise : Machine) :
      HandshakeLog l conn
      [⟨pollQuitOp, .dflt⟩, ⟨newMachineOp l, .machine noise⟩,
       ⟨.setReadDeadline conn .nowPlusHandshakeReadTimeout, .ok⟩,
       ⟨.doHandshake noise conn, .ok⟩,
       ⟨pollQuitOp, .chose 0⟩,
       ⟨.comm .sendSema, .ok⟩]
  | clearError (noise : Machine) (e : GoError) (rc r : Resp)
      (hrc : rc = .ok ∨ ∃ e1, rc = .err e1) (hr : r = .chose 0 ∨ r = .chose 1) :
      HandshakeLog l conn
      [⟨pollQuitOp, .dflt⟩, ⟨newMachineOp l, .machine noise⟩,
       ⟨.setReadDeadline conn .nowPlusHandshakeReadTimeout, .ok⟩,
       ⟨.doHandshake noise conn, .ok⟩,
       ⟨pollQuitOp, .dflt⟩,
       ⟨.setReadDeadline conn .zero, .err e⟩,
       ⟨.connClose conn, rc⟩,
       ⟨publishOp ⟨none, rejectedConnErr (some e) conn.remoteAddr⟩, r⟩,
       ⟨.comm .sendSema, .ok⟩]
  | success (noise : Machine) (r : Resp) (hr : r = .chose 0 ∨ r = .chose 1) :
      HandshakeLog l conn
      [⟨pollQuitOp, .dflt⟩, ⟨newMachineOp l, .machine noise⟩,
       ⟨.setReadDeadline conn .nowPlusHandshakeReadTimeout, .ok⟩,
       ⟨.doHandshake noise conn, .ok⟩,
       ⟨pollQuitOp, .dflt⟩,
       ⟨.setReadDeadline conn .zero, .ok⟩,
       ⟨publishOp ⟨some ⟨conn, noise⟩, none⟩, r⟩,
       ⟨.comm .sendSema, .ok⟩]

/-- The logs and results of the runs of one pass of the loop of `listen`. -/
inductive ListenLog : List Event → Bool → Prop where
  | quit : ListenLog [⟨acquireOp, .chose 1⟩] false
  | acceptError (e : GoError) (r : Resp) (hr : r = .chose 0 ∨ r = .chose 1) :
      ListenLog
      [⟨acquireOp, .chose 0⟩, ⟨.tcpAccept, .err e⟩, ⟨publishOp ⟨none, some e⟩, r⟩,
       ⟨.comm .sendSema, .ok⟩] true
  | accepted (c : RawConn) :
      ListenLog [⟨acquireOp, .chose 0⟩, ⟨.tcpAccept, .conn c⟩, ⟨.go c, .ok⟩] true

/-! ## What holds in every reachable state -/

/-- Operations that leave the listener as it is and start no goroutine. -/
def Op.quiet : Op → Bool
  | .select cs _ => cs.all (fun c => c != .recvSema && c != .sendSema)
  | .comm c => c != .recvSema && c != .sendSema
  | .closeQuit => false
  | .tcpClose => false
  | .go _ => false
  | _ => true

/-- Code that, on every path, performs only operations that leave the listener
alone, then sends to `l.handshakeSema`, and returns right after. -/
def Prog.ReleasesLast {α : Type} : Prog α → Prop
  | .ret _ => False
  | .vis o k =>
    (o = .comm .sendSema ∧ ∀ r, o.valid r = true → (k r).head = none)
    ∨ (o.quiet = true ∧ ∀ r, o.valid r = true → (k r).ReleasesLast)

/-- Code of a pass of the accept loop that holds a permit: on every path it
performs only operations that leave the listener alone, then sends to
`l.handshakeSema` or starts a handshake goroutine, and ends the pass. -/
def Prog.HandsOver : Prog Bool → Prop
  | .ret _ => False
  | .vis o k =>
    ((o = .comm .sendSema ∨ ∃ c, o = .go c) ∧ ∀ r, o.valid r = true → k r = .ret true)
    ∨ (o.quiet = true ∧ ∀ r, o.valid r = true → (k r).HandsOver)

/-- Where the code of a goroutine can be: the accept loop at the top of a
pass, holding a permit, or returned; a handshake goroutine holding its permit,
or returned. -/
def Goroutine.Sound (g : Goroutine) : Prop :=
  match g.code with
  | .listen p => p = listen ∨ p.HandsOver ∨ p = .ret false
  | .handshake _ p => p.head = none ∨ p.ReleasesLast

/-- The invariant of the listener. -/
structure State.Inv (s : State) : Prop where
  running : s.panicked = false
  closes : s.quitCloses = if s.l.quit then 1 else 0
  permits : s.l.handshakeSema + s.permitsHeld = defaultHandshakes
  sound : ∀ g ∈ s.goroutines, g.Sound

/-- The log of a handshake goroutine is the log of the operations of
`doHandshake` up to the code the goroutine has left to run. -/
def Goroutine.Linked (l : Listener) (g : Goroutine) : Prop :=
  match g.code with
  | .handshake c p => ∃ rs, (doHandshake l c).run rs = some (g.log, p)
  | .listen _ => True

/-! ## Sample inputs -/

/-- The results of the operations of a run, in order; `.ok` beyond the list. -/
def envOf (rs : List Resp) : Nat → Resp :=
  fun n => rs.getD n .ok

/-- A listener as `NewListener` leaves it. -/
def sampleListener : Listener :=
  { localStatic := 7, tcpClosed := false, passphrase := [1, 2], authData := [3],
    handshakeSema := 1000, quit := false }

/-- An accepted connection. -/
def sampleConn : RawConn := ⟨1, "10.0.0.1:9735"⟩

/-- A run of `doHandshake` in which `NewBrontideMachine` fails. -/
def machineErrorRun : Nat → Resp :=
  envOf [.dflt, .err ⟨"bad config"⟩, .chose 0, .ok]

/-- A run of `doHandshake` in which the handshake fails. -/
def handshakeErrorRun : Nat → Resp :=
  envOf [.dflt, .machine ⟨5⟩, .ok, .err ⟨"EOF"⟩, .ok, .chose 0, .ok]

/-- A run of `doHandshake` in which every call succeeds. -/
def successRun : Nat → Resp :=
  envOf [.dflt, .machine ⟨5⟩, .ok, .ok, .dflt, .ok, .chose 0, .ok]

/-- A run of `doHandshake` that finds `l.quit` closed at its first check. -/
def quitAtStartRun : Nat → Resp :=
  envOf [.chose 0, .ok]

/-- A run of `doHandshake` that finds `l.quit` closed at its second check. -/
def quitAfterHandshakeRun : Nat → Resp :=
  envOf [.dflt, .machine ⟨5⟩, .ok, .ok, .chose 0, .ok]

/-- A run of `doHandshake` in which every call succeeds and the `select` of
`acceptConn` runs its `case <-l.quit`. -/
def droppedSuccessRun : Nat → Resp :=
  envOf [.dflt, .machine ⟨5⟩, .ok, .ok, .dflt, .ok, .chose 1, .ok]

/-- A pass of the loop of `listen` in which `l.tcp.Accept()` fails. -/
def acceptErrorRun : Nat → Resp :=
  envOf [.chose 0, .err ⟨"too many open files"⟩, .chose 0, .ok]

/-- A pass of the loop of `listen` that accepts `sampleConn`. -/
def acceptedRun : Nat → Resp :=
  envOf [.chose 0, .conn sampleConn, .ok]

/-- The state `NewListener [1, 2] 7 "127.0.0.1:0" [3]` returns. -/
def sampleState : State :=
  { l := sampleListener, panicked := false, quitCloses := 0,
    goroutines := [⟨.listen listen, []⟩] }

/-- The state after a call of `Close` in `sampleState`. -/
def closedState : State :=
  { l := { sampleListener with quit := true, tcpClosed := true }, panicked := false,
    quitCloses := 1, goroutines := [⟨.listen listen, []⟩] }

/-- The accept loop takes a permit, a caller runs `Close`, and
`l.tcp.Accept()` fails in the accept loop, which goes on to `rejectConn`. -/
def closeDuringAccept : List Action :=
  [.run 0 (.chose 0), .close [.dflt, .ok, .ok],
   .run 0 (.err ⟨"use of closed network connection"⟩)]

/-- The state after `closeDuringAccept` on a new listener: `l.quit` is closed
and the accept loop is inside `rejectConn`. -/
def loopOfferingState : State :=
  (sampleState.steps closeDuringAccept).getD sampleState


/-! ## Theorems -/


theorem Prog.exec_of_allRuns {α : Type} (P : List Event → α → Prop) (env : Nat → Resp) :
    ∀ (p : Prog α) (acc : List Event) (n : Nat), p.AllRuns P acc →
      (∀ e ∈ (p.exec env n).1, e.op.valid e.resp = true) →
      P (acc ++ (p.exec env n).1) (p.exec env n).2 := by
  intro p
  induction p with
  | ret a => intro acc n h _; simpa [Prog.exec, Prog.AllRuns] using h
  | vis o k ih =>
    intro acc n h hv
    simp only [Prog.exec, List.mem_cons, forall_eq_or_imp] at hv ⊢
    have := ih (env n) (acc ++ [⟨o, env n⟩]) (n + 1) (h (env n) hv.1) hv.2
    simpa using this

theorem Op.valid_pollQuit (r : Resp) :
    (Op.select [.recvQuit] true).valid r = true ↔ r = .chose 0 ∨ r = .dflt := by
  cases r with
  | chose i => rcases i with _ | i <;> simp [Op.valid]
  | recvd i m => rcases i with _ | i <;> simp [Op.valid]
  | _ => simp [Op.valid]

theorem Op.valid_publish (m : maybeConn) (r : Resp) :
    (Op.select [.sendConns m, .recvQuit] false).valid r = true ↔ r = .chose 0 ∨ r = .chose 1 := by
  cases r with
  | chose i => rcases i with _ | _ | i <;> simp [Op.valid]
  | recvd i m => rcases i with _ | _ | i <;> simp [Op.valid]
  | _ => simp [Op.valid]

theorem Op.valid_acquire (r : Resp) :
    (Op.select [.recvSema, .recvQuit] false).valid r = true ↔ r = .chose 0 ∨ r = .chose 1 := by
  cases r with
  | chose i => rcases i with _ | _ | i <;> simp [Op.valid]
  | recvd i m => rcases i with _ | _ | i <;> simp [Op.valid]
  | _ => simp [Op.valid]

theorem Op.valid_sendSema (r : Resp) :
    (Op.comm .sendSema).valid r = true ↔ r = .ok := by
  cases r <;> simp [Op.valid]

theorem Op.valid_go (c : RawConn) (r : Resp) :
    (Op.go c).valid r = true ↔ r = .ok := by
  cases r <;> simp [Op.valid]

theorem Op.valid_newBrontideMachine (cfg : BrontideMachineConfig) (r : Resp) :
    (Op.newBrontideMachine cfg).valid r = true ↔ (∃ m, r = .machine m) ∨ ∃ e, r = .err e := by
  cases r <;> simp [Op.valid]

theorem Op.valid_tcpAccept (r : Resp) :
    Op.tcpAccept.valid r = true ↔ (∃ c, r = .conn c) ∨ ∃ e, r = .err e := by
  cases r <;> simp [Op.valid]

theorem Op.valid_setReadDeadline (c : RawConn) (t : Deadline) (r : Resp) :
    (Op.setReadDeadline c t).valid r = true ↔ r = .ok ∨ ∃ e, r = .err e := by
  cases r <;> simp [Op.valid]

theorem Op.valid_doHandshake (m : Machine) (c : RawConn) (r : Resp) :
    (Op.doHandshake m c).valid r = true ↔ r = .ok ∨ ∃ e, r = .err e := by
  cases r <;> simp [Op.valid]

theorem Op.valid_connClose (c : RawConn) (r : Resp) :
    (Op.connClose c).valid r = true ↔ r = .ok ∨ ∃ e, r = .err e := by
  cases r <;> simp [Op.valid]

theorem ite_error_some {β : Type} (e : GoError) (a b : β) :
    (if ((some e : error) != none) = true then a else b) = a := by simp

theorem ite_error_none {β : Type} (a b : β) :
    (if ((none : error) != none) = true then a else b) = b := by simp

theorem doHandshake_allRuns (l : Listener) (conn : RawConn) :
    (doHandshake l conn).AllRuns (fun log _ => HandshakeLog l conn log) [] := by
  simp only [doHandshake, Prog.defer, bind, pure, Prog.bind, perform, NewBrontideMachine,
    rejectConn, acceptConn, SetReadDeadline, DoHandshake, connClose, Prog.AllRuns,
    Op.valid_pollQuit, Op.valid_publish, Op.valid_sendSema, Op.valid_newBrontideMachine,
    Op.valid_setReadDeadline, Op.valid_doHandshake, Op.valid_connClose, List.nil_append]
  rintro r0 (rfl | rfl)
  · simp only [Prog.bind, Prog.AllRuns, Op.valid_sendSema]
    rintro _ rfl
    exact .quitAtStart
  · simp only [Prog.bind, Prog.AllRuns, Op.valid_newBrontideMachine]
    rintro r1 (⟨noise, rfl⟩ | ⟨e, rfl⟩)
    · simp only [Prog.bind, Prog.AllRuns, Op.valid_setReadDeadline]
      rintro r2 (rfl | ⟨e, rfl⟩)
      · simp only [Resp.toError, ite_error_none, Prog.bind, Prog.AllRuns, Op.valid_doHandshake]
        rintro r3 (rfl | ⟨e, rfl⟩)
        · simp only [Resp.toError, ite_error_none, Prog.bind, Prog.AllRuns, Op.valid_pollQuit]
          rintro r4 (rfl | rfl)
          · simp only [Prog.bind, Prog.AllRuns, Op.valid_sendSema]
            rintro _ rfl
            exact .quitAfterHandshake noise
          · simp only [Prog.bind, Prog.AllRuns, Op.valid_setReadDeadline]
            rintro r5 (rfl | ⟨e, rfl⟩)
            · simp only [Resp.toError, ite_error_none, Prog.bind, Prog.AllRuns, Op.valid_publish,
                Op.valid_sendSema]
              rintro r hr _ rfl
              exact .success noise r hr
            · simp only [Resp.toError, ite_error_some, Prog.bind, Prog.AllRuns, Op.valid_publish,
                Op.valid_sendSema, Op.valid_connClose]
              rintro rc hrc r hr _ rfl
              exact .clearError noise e rc r hrc hr
        · simp only [Resp.toError, ite_error_some, Prog.bind, Prog.AllRuns, Op.valid_publish,
            Op.valid_sendSema, Op.valid_connClose]
          rintro rc hrc r hr _ rfl
          exact .handshakeError noise e rc r hrc hr
      · simp only [Resp.toError, ite_error_some, Prog.bind, Prog.AllRuns, Op.valid_publish,
          Op.valid_sendSema, Op.valid_connClose]
        rintro rc hrc r hr _ rfl
        exact .deadlineError noise e rc r hrc hr
    · simp only [Prog.bind, Prog.AllRuns, Op.valid_publish, Op.valid_sendSema]
      rintro r hr _ rfl
      exact .machineError e r hr

/-- Every run of `doHandshake` follows one of the paths of `HandshakeLog`. -/
theorem doHandshake_log (l : Listener) (conn : RawConn) (env : Nat → Resp)
    (hv : ∀ e ∈ ((doHandshake l conn).exec env 0).1, e.op.valid e.resp = true) :
    HandshakeLog l conn ((doHandshake l conn).exec env 0).1 := by
  simpa using Prog.exec_of_allRuns _ env _ [] 0 (doHandshake_allRuns l conn) hv

theorem listen_allRuns : listen.AllRuns ListenLog [] := by
  simp only [listen, bind, pure, Prog.bind, perform, tcpAccept, rejectConn, Prog.AllRuns,
    Op.valid_acquire, List.nil_append]
  rintro r0 (rfl | rfl)
  · simp only [Prog.bind, Prog.AllRuns, Op.valid_tcpAccept]
    rintro r1 (⟨c, rfl⟩ | ⟨e, rfl⟩)
    · simp only [Prog.bind, Prog.AllRuns, Op.valid_go]
      rintro _ rfl
      exact .accepted c
    · simp only [Prog.bind, Prog.AllRuns, Op.valid_publish, Op.valid_sendSema]
      rintro r hr _ rfl
      exact .acceptError e r hr
  · simp only [Prog.bind, Prog.AllRuns]
    exact .quit

/-- Every pass of the loop of `listen` follows one of the paths of `ListenLog`. -/
theorem listen_log (env : Nat → Resp)
    (hv : ∀ e ∈ (listen.exec env 0).1, e.op.valid e.resp = true) :
    ListenLog (listen.exec env 0).1 (listen.exec env 0).2 := by
  simpa using Prog.exec_of_allRuns _ env _ [] 0 listen_allRuns hv

/-! ### Reading a log -/

@[simp]
theorem published_publishOp (m : maybeConn) (r : Resp) :
    Event.published ⟨publishOp m, r⟩ = some m := rfl

@[simp]
theorem published_pollQuitOp (r : Resp) :
    Event.published ⟨pollQuitOp, r⟩ = none := rfl

@[simp]
theorem published_acquireOp (r : Resp) :
    Event.published ⟨acquireOp, r⟩ = none := rfl

@[simp]
theorem published_sendSema (r : Resp) :
    Event.published ⟨.comm .sendSema, r⟩ = none := rfl

@[simp]
theorem published_newMachineOp (l : Listener) (r : Resp) :
    Event.published ⟨newMachineOp l, r⟩ = none := rfl

@[simp]
theorem published_setReadDeadline (c : RawConn) (t : Deadline) (r : Resp) :
    Event.published ⟨.setReadDeadline c t, r⟩ = none := rfl

@[simp]
theorem published_doHandshake (m : Machine) (c : RawConn) (r : Resp) :
    Event.published ⟨.doHandshake m c, r⟩ = none := rfl

@[simp]
theorem published_connClose (c : RawConn) (r : Resp) :
    Event.published ⟨.connClose c, r⟩ = none := rfl

@[simp]
theorem published_tcpAccept (r : Resp) :
    Event.published ⟨.tcpAccept, r⟩ = none := rfl

@[simp]
theorem published_go (c : RawConn) (r : Resp) :
    Event.published ⟨.go c, r⟩ = none := rfl

@[simp]
theorem observesQuit_pollQuit_chose :
    Event.observesQuit ⟨pollQuitOp, .chose 0⟩ = true := rfl

@[simp]
theorem observesQuit_publish_chose_one (m : maybeConn) :
    Event.observesQuit ⟨publishOp m, .chose 1⟩ = true := rfl

@[simp]
theorem observesQuit_publish_chose_zero (m : maybeConn) :
    Event.observesQuit ⟨publishOp m, .chose 0⟩ = false := rfl

@[simp]
theorem observesQuit_dflt (o : Op) :
    Event.observesQuit ⟨o, .dflt⟩ = false := by
  cases o <;> rfl

@[simp]
theorem observesQuit_ok (o : Op) :
    Event.observesQuit ⟨o, .ok⟩ = false := by
  cases o <;> rfl

@[simp]
theorem observesQuit_err (o : Op) (e : GoError) :
    Event.observesQuit ⟨o, .err e⟩ = false := by
  cases o <;> rfl

@[simp]
theorem observesQuit_machine (o : Op) (m : Machine) :
    Event.observesQuit ⟨o, .machine m⟩ = false := by
  cases o <;> rfl

@[simp]
theorem observesQuit_conn (o : Op) (c : RawConn) :
    Event.observesQuit ⟨o, .conn c⟩ = false := by
  cases o <;> rfl

@[simp]
theorem handedOff_publish_sent (m : maybeConn) :
    Event.handedOff ⟨publishOp m, .chose 0⟩ = some m := by
  simp [Event.handedOff, Op.offer, offerIn]

@[simp]
theorem handedOff_publish_quit (m : maybeConn) :
    Event.handedOff ⟨publishOp m, .chose 1⟩ = none := by
  simp [Event.handedOff, Op.offer, offerIn]

@[simp]
theorem dropped_publish_sent (m : maybeConn) :
    Event.dropped ⟨publishOp m, .chose 0⟩ = none := by
  simp [Event.dropped]

@[simp]
theorem dropped_publish_quit (m : maybeConn) :
    Event.dropped ⟨publishOp m, .chose 1⟩ = some m := by
  simp [Event.dropped]

@[simp]
theorem handedOff_pollQuitOp (r : Resp) :
    Event.handedOff ⟨pollQuitOp, r⟩ = none := rfl

@[simp]
theorem dropped_pollQuitOp (r : Resp) :
    Event.dropped ⟨pollQuitOp, r⟩ = none := rfl

@[simp]
theorem handedOff_sendSema (r : Resp) :
    Event.handedOff ⟨.comm .sendSema, r⟩ = none := rfl

@[simp]
theorem dropped_sendSema (r : Resp) :
    Event.dropped ⟨.comm .sendSema, r⟩ = none := rfl

@[simp]
theorem handedOff_newMachineOp (l : Listener) (r : Resp) :
    Event.handedOff ⟨newMachineOp l, r⟩ = none := rfl

@[simp]
theorem dropped_newMachineOp (l : Listener) (r : Resp) :
    Event.dropped ⟨newMachineOp l, r⟩ = none := rfl

@[simp]
theorem handedOff_setReadDeadline (c : RawConn) (t : Deadline) (r : Resp) :
    Event.handedOff ⟨.setReadDeadline c t, r⟩ = none := rfl

@[simp]
theorem dropped_setReadDeadline (c : RawConn) (t : Deadline) (r : Resp) :
    Event.dropped ⟨.setReadDeadline c t, r⟩ = none := rfl

@[simp]
theorem handedOff_doHandshake (n : Machine) (c : RawConn) (r : Resp) :
    Event.handedOff ⟨.doHandshake n c, r⟩ = none := rfl

@[simp]
theorem dropped_doHandshake (n : Machine) (c : RawConn) (r : Resp) :
    Event.dropped ⟨.doHandshake n c, r⟩ = none := rfl

@[simp]
theorem handedOff_connClose (c : RawConn) (r : Resp) :
    Event.handedOff ⟨.connClose c, r⟩ = none := rfl

@[simp]
theorem dropped_connClose (c : RawConn) (r : Resp) :
    Event.dropped ⟨.connClose c, r⟩ = none := rfl

/-! ### The handshake goroutine -/

/-- C8.  In a run of `doHandshake` that does not observe the shutdown signal,
whatever the calls it makes return, `acceptConn` and `rejectConn` are called
exactly once between them, and the outcome published has exactly one of its
two fields set. -/
theorem doHandshake_publishes_exactly_once (l : Listener) (conn : RawConn) (env : Nat → Resp)
    (hv : ∀ e ∈ ((doHandshake l conn).exec env 0).1, e.op.valid e.resp = true)
    (hq : ∀ e ∈ ((doHandshake l conn).exec env 0).1, e.observesQuit = false) :
    (acceptConnCalls ((doHandshake l conn).exec env 0).1).length
        + (rejectConnCalls ((doHandshake l conn).exec env 0).1).length = 1
      ∧ (published ((doHandshake l conn).exec env 0).1).length = 1
      ∧ ∀ m ∈ published ((doHandshake l conn).exec env 0).1,
          (m.conn ≠ none ∧ m.err = none) ∨ (m.conn = none ∧ m.err ≠ none) := by
  have h := doHandshake_log l conn env hv
  generalize ((doHandshake l conn).exec env 0).1 = log at h hq
  cases h with
  | quitAtStart => simp at hq
  | quitAfterHandshake => simp at hq
  | success noise r hr =>
    rcases hr with rfl | rfl
    · simp [acceptConnCalls, rejectConnCalls, published]
    · simp at hq
  | _ =>
    rename_i hr
    rcases hr with rfl | rfl
    · simp [acceptConnCalls, rejectConnCalls, published, rejectedConnErr]
    · simp at hq

/-- Witness of C8: the run `handshakeErrorRun`. -/
theorem doHandshake_publishes_exactly_once_witness :
    ((∀ e ∈ ((doHandshake sampleListener sampleConn).exec handshakeErrorRun 0).1,
        e.op.valid e.resp = true)
      ∧ (∀ e ∈ ((doHandshake sampleListener sampleConn).exec handshakeErrorRun 0).1,
        e.observesQuit = false))
    ∧ ((acceptConnCalls ((doHandshake sampleListener sampleConn).exec handshakeErrorRun 0).1).length
        + (rejectConnCalls
            ((doHandshake sampleListener sampleConn).exec handshakeErrorRun 0).1).length = 1
      ∧ (published ((doHandshake sampleListener sampleConn).exec handshakeErrorRun 0).1).length = 1
      ∧ ∀ m ∈ published ((doHandshake sampleListener sampleConn).exec handshakeErrorRun 0).1,
          (m.conn ≠ none ∧ m.err = none) ∨ (m.conn = none ∧ m.err ≠ none)) :=
  ⟨⟨by decide, by decide⟩,
   doHandshake_publishes_exactly_once sampleListener sampleConn handshakeErrorRun
     (by decide) (by decide)⟩

/-- C7.  In a run of `doHandshake` in which no call returns an error and the
shutdown signal is not observed, the goroutine publishes exactly the outcome
`maybeConn{conn: &NoiseConn{conn, noise}}` with a nil error, `noise` being the
engine `NewBrontideMachine` returned; the last deadline set on `conn` before
publishing is the zero time, `conn` is never closed, and `Accept`, receiving
that outcome, returns the connection with a nil error. -/
theorem doHandshake_success (l : Listener) (conn : RawConn) (env : Nat → Resp)
    (hv : ∀ e ∈ ((doHandshake l conn).exec env 0).1, e.op.valid e.resp = true)
    (hq : ∀ e ∈ ((doHandshake l conn).exec env 0).1, e.observesQuit = false)
    (hok : ∀ e ∈ ((doHandshake l conn).exec env 0).1, e.resp.toError = none) :
    ∃ noise : Machine,
      ⟨newMachineOp l, .machine noise⟩ ∈ ((doHandshake l conn).exec env 0).1
      ∧ published ((doHandshake l conn).exec env 0).1 = [⟨some ⟨conn, noise⟩, none⟩]
      ∧ (deadlinesSet conn (beforePublish ((doHandshake l conn).exec env 0).1)).getLast?
          = some .zero
      ∧ (∀ e ∈ ((doHandshake l conn).exec env 0).1, e.closes conn = false)
      ∧ (Accept.exec (fun _ => .recvd 0 ⟨some ⟨conn, noise⟩, none⟩) 0).2
          = (.ofNoiseConn (some ⟨conn, noise⟩), none) := by
  have h := doHandshake_log l conn env hv
  generalize ((doHandshake l conn).exec env 0).1 = log at h hq hok
  cases h with
  | quitAtStart => simp at hq
  | quitAfterHandshake => simp at hq
  | success noise r hr =>
    rcases hr with rfl | rfl
    · refine ⟨noise, by simp, by simp [published], ?_, ?_, rfl⟩
      · simp [beforePublish, deadlinesSet]
      · simp [Event.closes]
    · simp at hq
  | _ => simp [Resp.toError] at hok

/-- Witness of C7: the run `successRun`. -/
theorem doHandshake_success_witness :
    ((∀ e ∈ ((doHandshake sampleListener sampleConn).exec successRun 0).1,
        e.op.valid e.resp = true)
      ∧ (∀ e ∈ ((doHandshake sampleListener sampleConn).exec successRun 0).1,
        e.observesQuit = false)
      ∧ (∀ e ∈ ((doHandshake sampleListener sampleConn).exec successRun 0).1,
        e.resp.toError = none))
    ∧ ∃ noise : Machine,
      ⟨newMachineOp sampleListener, .machine noise⟩
          ∈ ((doHandshake sampleListener sampleConn).exec successRun 0).1
      ∧ published ((doHandshake sampleListener sampleConn).exec successRun 0).1
          = [⟨some ⟨sampleConn, noise⟩, none⟩]
      ∧ (deadlinesSet sampleConn
            (beforePublish ((doHandshake sampleListener sampleConn).exec successRun 0).1)).getLast?
          = some .zero
      ∧ (∀ e ∈ ((doHandshake sampleListener sampleConn).exec successRun 0).1,
          e.closes sampleConn = false)
      ∧ (Accept.exec (fun _ => .recvd 0 ⟨some ⟨sampleConn, noise⟩, none⟩) 0).2
          = (.ofNoiseConn (some ⟨sampleConn, noise⟩), none) :=
  ⟨⟨by decide, by decide, by decide⟩,
   doHandshake_success sampleListener sampleConn successRun (by decide) (by decide) (by decide)⟩

/-- C6.  In a run of `doHandshake` in which `DoHandshake` returns the error
`e` and the shutdown signal is not observed, the goroutine publishes exactly
the outcome with a nil connection and the error
"unable to accept connection from <remote address>: <e>"; `Accept`, receiving
it, returns that error; and the operations of the pass of the accept loop
that accepted the connection, followed by those of the goroutine, leave the
listener (permits, shutdown signal) as it was. -/
theorem doHandshake_handshake_error (l : Listener) (conn : RawConn) (env : Nat → Resp)
    (noise : Machine) (e : GoError)
    (hv : ∀ ev ∈ ((doHandshake l conn).exec env 0).1, ev.op.valid ev.resp = true)
    (hq : ∀ ev ∈ ((doHandshake l conn).exec env 0).1, ev.observesQuit = false)
    (he : ⟨.doHandshake noise conn, .err e⟩ ∈ ((doHandshake l conn).exec env 0).1) :
    published ((doHandshake l conn).exec env 0).1
        = [⟨none, some ⟨"unable to accept connection from " ++ conn.remoteAddr ++ ": " ++ e.msg⟩⟩]
      ∧ (Accept.exec (fun _ => .recvd 0
            ⟨none, some ⟨"unable to accept connection from " ++ conn.remoteAddr ++ ": "
              ++ e.msg⟩⟩) 0).2.2
          = some ⟨"unable to accept connection from " ++ conn.remoteAddr ++ ": " ++ e.msg⟩
      ∧ ∀ (env1 : Nat → Resp) (l1 : Listener),
          (∀ ev ∈ (listen.exec env1 0).1, ev.op.valid ev.resp = true) →
          ⟨.tcpAccept, .conn conn⟩ ∈ (listen.exec env1 0).1 →
          0 < l1.handshakeSema →
          l1.after ((listen.exec env1 0).1 ++ ((doHandshake l conn).exec env 0).1) = l1 := by
  have h := doHandshake_log l conn env hv
  generalize ((doHandshake l conn).exec env 0).1 = log at h hq he
  cases h with
  | handshakeError noise1 e1 rc r hrc hr =>
    rcases hr with rfl | rfl
    · have hee : e1 = e := by
        simp at he
        exact he.2.symm
      subst hee
      refine ⟨by simp [published, rejectedConnErr], rfl, ?_⟩
      intro env1 l1 hv1 hc hpos
      have h1 := listen_log env1 hv1
      generalize (listen.exec env1 0).1 = log1 at h1 hc
      generalize (listen.exec env1 0).2 = b at h1
      cases h1 with
      | quit => simp at hc
      | acceptError e2 r2 hr2 => rcases hr2 with rfl | rfl <;> simp at hc
      | accepted c =>
        cases l1
        simp only [Listener.after, List.cons_append, List.nil_append, List.foldl_cons,
          List.foldl_nil, Op.effect, Comm.apply, List.getElem?_cons_zero]
        simp at hpos ⊢
        omega
    · simp at hq
  | quitAtStart => simp at he
  | quitAfterHandshake => simp at he
  | success noise1 r hr => simp at he
  | machineError e1 r hr => simp at he
  | deadlineError noise1 e1 rc r hrc hr => simp at he
  | clearError noise1 e1 rc r hrc hr => simp at he

/-- Witness of C6: the run `handshakeErrorRun`, after the pass `acceptedRun`. -/
theorem doHandshake_handshake_error_witness :
    ((∀ ev ∈ ((doHandshake sampleListener sampleConn).exec handshakeErrorRun 0).1,
        ev.op.valid ev.resp = true)
      ∧ (∀ ev ∈ ((doHandshake sampleListener sampleConn).exec handshakeErrorRun 0).1,
        ev.observesQuit = false)
      ∧ ⟨.doHandshake ⟨5⟩ sampleConn, .err ⟨"EOF"⟩⟩
          ∈ ((doHandshake sampleListener sampleConn).exec handshakeErrorRun 0).1
      ∧ (∀ ev ∈ (listen.exec acceptedRun 0).1, ev.op.valid ev.resp = true)
      ∧ ⟨.tcpAccept, .conn sampleConn⟩ ∈ (listen.exec acceptedRun 0).1
      ∧ 0 < sampleListener.handshakeSema)
    ∧ published ((doHandshake sampleListener sampleConn).exec handshakeErrorRun 0).1
        = [⟨none, some ⟨"unable to accept connection from 10.0.0.1:9735: EOF"⟩⟩]
    ∧ sampleListener.after ((listen.exec acceptedRun 0).1
        ++ ((doHandshake sampleListener sampleConn).exec handshakeErrorRun 0).1)
        = sampleListener :=
  ⟨⟨by decide, by decide, by decide, by decide, by decide, by decide⟩,
   (doHandshake_handshake_error sampleListener sampleConn handshakeErrorRun ⟨5⟩ ⟨"EOF"⟩
      (by decide) (by decide) (by decide)).1,
   (doHandshake_handshake_error sampleListener sampleConn handshakeErrorRun ⟨5⟩ ⟨"EOF"⟩
      (by decide) (by decide) (by decide)).2.2 acceptedRun sampleListener
      (by decide) (by decide) (by decide)⟩

/-- C5, as the code has it.  A run of `doHandshake` that observes the shutdown
signal at one of its two checks returns without closing any connection,
publishes no outcome, and sends its permit back to `l.handshakeSema`, once, as
its last operation. -/
theorem doHandshake_abandons_on_shutdown (l : Listener) (conn : RawConn) (env : Nat → Resp)
    (hv : ∀ e ∈ ((doHandshake l conn).exec env 0).1, e.op.valid e.resp = true)
    (hq : ∃ e ∈ ((doHandshake l conn).exec env 0).1,
      e.op = pollQuitOp ∧ e.observesQuit = true) :
    (∀ e ∈ ((doHandshake l conn).exec env 0).1, ∀ c, e.closes c = false)
      ∧ published ((doHandshake l conn).exec env 0).1 = []
      ∧ (((doHandshake l conn).exec env 0).1.filter Event.releases).length = 1
      ∧ ((doHandshake l conn).exec env 0).1.getLast? = some ⟨.comm .sendSema, .ok⟩ := by
  have h := doHandshake_log l conn env hv
  generalize ((doHandshake l conn).exec env 0).1 = log at h hq
  cases h with
  | quitAtStart => simp [Event.closes, published, Event.releases]
  | quitAfterHandshake => simp [Event.closes, published, Event.releases]
  | success noise r hr => rcases hr with rfl | rfl <;> simp at hq
  | machineError e r hr => rcases hr with rfl | rfl <;> simp at hq
  | deadlineError noise e rc r hrc hr =>
    rcases hr with rfl | rfl <;> rcases hrc with rfl | ⟨e1, rfl⟩ <;> simp at hq
  | handshakeError noise e rc r hrc hr =>
    rcases hr with rfl | rfl <;> rcases hrc with rfl | ⟨e1, rfl⟩ <;> simp at hq
  | clearError noise e rc r hrc hr =>
    rcases hr with rfl | rfl <;> rcases hrc with rfl | ⟨e1, rfl⟩ <;> simp at hq

/-- Witness of C5 as amended: the run `quitAfterHandshakeRun`. -/
theorem doHandshake_abandons_on_shutdown_witness :
    ((∀ e ∈ ((doHandshake sampleListener sampleConn).exec quitAfterHandshakeRun 0).1,
        e.op.valid e.resp = true)
      ∧ (∃ e ∈ ((doHandshake sampleListener sampleConn).exec quitAfterHandshakeRun 0).1,
        e.op = pollQuitOp ∧ e.observesQuit = true))
    ∧ ((∀ e ∈ ((doHandshake sampleListener sampleConn).exec quitAfterHandshakeRun 0).1,
          ∀ c, e.closes c = false)
      ∧ published ((doHandshake sampleListener sampleConn).exec quitAfterHandshakeRun 0).1 = []
      ∧ (((doHandshake sampleListener sampleConn).exec quitAfterHandshakeRun 0).1.filter
          Event.releases).length = 1
      ∧ ((doHandshake sampleListener sampleConn).exec quitAfterHandshakeRun 0).1.getLast?
          = some ⟨.comm .sendSema, .ok⟩) :=
  ⟨⟨by decide, by decide⟩,
   doHandshake_abandons_on_shutdown sampleListener sampleConn quitAfterHandshakeRun
     (by decide) (by decide)⟩

/-- C5 as stated fails.  The runs `quitAtStartRun` and `quitAfterHandshakeRun`
observe the shutdown signal, at the first and at the second check, and neither
performs a `conn.Close()`. -/
theorem doHandshake_abandon_leaves_conn_open :
    ((∃ e ∈ ((doHandshake sampleListener sampleConn).exec quitAtStartRun 0).1,
        e.op = pollQuitOp ∧ e.observesQuit = true)
      ∧ ¬ ∃ e ∈ ((doHandshake sampleListener sampleConn).exec quitAtStartRun 0).1,
        e.closes sampleConn = true)
    ∧ ((∃ e ∈ ((doHandshake sampleListener sampleConn).exec quitAfterHandshakeRun 0).1,
        e.op = pollQuitOp ∧ e.observesQuit = true)
      ∧ ¬ ∃ e ∈ ((doHandshake sampleListener sampleConn).exec quitAfterHandshakeRun 0).1,
        e.closes sampleConn = true) := by
  decide

/-- C4, as the code has it.  In a run of `doHandshake` in which
`NewBrontideMachine` returns no error: if `rejectConn` is called with a
failure outcome (nil connection), `conn.Close()` was called before that call;
and `conn` is never closed exactly when `acceptConn` was called with it, the
success outcome being handed to a caller of `Accept` or dropped on the
`case <-l.quit` of its `select`, or the run observes the shutdown signal at
one of its two checks. -/
theorem doHandshake_failure_closes_conn (l : Listener) (conn : RawConn) (env : Nat → Resp)
    (hv : ∀ e ∈ ((doHandshake l conn).exec env 0).1, e.op.valid e.resp = true)
    (hm : ∀ e ∈ ((doHandshake l conn).exec env 0).1,
      e.op = newMachineOp l → e.resp.toError = none) :
    ((∃ m ∈ published ((doHandshake l conn).exec env 0).1, m.conn = none) →
        ∃ e ∈ beforePublish ((doHandshake l conn).exec env 0).1, e.closes conn = true)
      ∧ ((∀ e ∈ ((doHandshake l conn).exec env 0).1, e.closes conn = false) ↔
          ((∃ noise, ⟨some ⟨conn, noise⟩, none⟩ ∈ handedOff ((doHandshake l conn).exec env 0).1)
            ∨ (∃ noise, ⟨some ⟨conn, noise⟩, none⟩
                ∈ dropped ((doHandshake l conn).exec env 0).1)
            ∨ ∃ e ∈ ((doHandshake l conn).exec env 0).1,
                e.op = pollQuitOp ∧ e.observesQuit = true)) := by
  have h := doHandshake_log l conn env hv
  generalize ((doHandshake l conn).exec env 0).1 = log at h hm
  cases h with
  | quitAtStart => simp [published, handedOff, dropped, Event.closes]
  | quitAfterHandshake => simp [published, handedOff, dropped, Event.closes]
  | success noise r hr =>
    rcases hr with rfl | rfl <;> simp [published, handedOff, dropped, Event.closes]
  | machineError e r hr => simp [Resp.toError] at hm
  | deadlineError noise e rc r hrc hr =>
    rcases hr with rfl | rfl <;> rcases hrc with rfl | ⟨e1, rfl⟩ <;>
      simp [published, handedOff, dropped, Event.closes, beforePublish, rejectedConnErr]
  | handshakeError noise e rc r hrc hr =>
    rcases hr with rfl | rfl <;> rcases hrc with rfl | ⟨e1, rfl⟩ <;>
      simp [published, handedOff, dropped, Event.closes, beforePublish, rejectedConnErr]
  | clearError noise e rc r hrc hr =>
    rcases hr with rfl | rfl <;> rcases hrc with rfl | ⟨e1, rfl⟩ <;>
      simp [published, handedOff, dropped, Event.closes, beforePublish, rejectedConnErr]

/-- Witness of C4 as amended: the runs `handshakeErrorRun` and
`droppedSuccessRun`. -/
theorem doHandshake_failure_closes_conn_witness :
    ((∀ e ∈ ((doHandshake sampleListener sampleConn).exec handshakeErrorRun 0).1,
        e.op.valid e.resp = true)
      ∧ (∀ e ∈ ((doHandshake sampleListener sampleConn).exec handshakeErrorRun 0).1,
        e.op = newMachineOp sampleListener → e.resp.toError = none)
      ∧ (∃ m ∈ published ((doHandshake sampleListener sampleConn).exec handshakeErrorRun 0).1,
        m.conn = none)
      ∧ (∀ e ∈ ((doHandshake sampleListener sampleConn).exec droppedSuccessRun 0).1,
        e.op.valid e.resp = true)
      ∧ (∀ e ∈ ((doHandshake sampleListener sampleConn).exec droppedSuccessRun 0).1,
        e.op = newMachineOp sampleListener → e.resp.toError = none)
      ∧ (∃ noise, ⟨some ⟨sampleConn, noise⟩, none⟩
          ∈ dropped ((doHandshake sampleListener sampleConn).exec droppedSuccessRun 0).1))
    ∧ (∃ e ∈ beforePublish ((doHandshake sampleListener sampleConn).exec handshakeErrorRun 0).1,
        e.closes sampleConn = true)
    ∧ ∀ e ∈ ((doHandshake sampleListener sampleConn).exec droppedSuccessRun 0).1,
        e.closes sampleConn = false :=
  ⟨⟨by decide, by decide, by decide, by decide, by decide, ⟨⟨5⟩, by decide⟩⟩,
   (doHandshake_failure_closes_conn sampleListener sampleConn handshakeErrorRun
      (by decide) (by decide)).1 (by decide),
   (doHandshake_failure_closes_conn sampleListener sampleConn droppedSuccessRun
      (by decide) (by decide)).2.2 (Or.inr (Or.inl ⟨⟨5⟩, by decide⟩))⟩

/-- C4 as stated fails.  In the run `machineErrorRun`, `NewBrontideMachine`
returns an error and the failure outcome is published without any
`conn.Close()`.  In the run `quitAfterHandshakeRun` no outcome is published,
and in the run `droppedSuccessRun` the success outcome is dropped on the
`case <-l.quit` of `acceptConn`; in neither is an outcome handed off, and in
neither is `conn` closed. -/
theorem doHandshake_machine_error_leaves_conn_open :
    (published ((doHandshake sampleListener sampleConn).exec machineErrorRun 0).1
        = [⟨none, some ⟨"unable to accept connection from 10.0.0.1:9735: bad config"⟩⟩]
      ∧ ¬ ∃ e ∈ ((doHandshake sampleListener sampleConn).exec machineErrorRun 0).1,
        e.closes sampleConn = true)
    ∧ (published ((doHandshake sampleListener sampleConn).exec quitAfterHandshakeRun 0).1 = []
      ∧ ¬ ∃ e ∈ ((doHandshake sampleListener sampleConn).exec quitAfterHandshakeRun 0).1,
        e.closes sampleConn = true)
    ∧ (handedOff ((doHandshake sampleListener sampleConn).exec droppedSuccessRun 0).1 = []
      ∧ (∀ e ∈ ((doHandshake sampleListener sampleConn).exec droppedSuccessRun 0).1,
        e.op = pollQuitOp → e.observesQuit = false)
      ∧ ¬ ∃ e ∈ ((doHandshake sampleListener sampleConn).exec droppedSuccessRun 0).1,
        e.closes sampleConn = true) := by
  decide

/-! ### The accept loop -/

theorem doHandshake_releasesLast (l : Listener) (conn : RawConn) :
    (doHandshake l conn).ReleasesLast := by
  have hs : ∀ r, (Op.comm Comm.sendSema).valid r = true →
      (Prog.ret () : Prog Unit).head = none := fun _ _ => rfl
  have hrel : (Prog.vis (.comm .sendSema) fun _ => Prog.ret ()).ReleasesLast :=
    Or.inl ⟨rfl, hs⟩
  have hpub : ∀ m, (Prog.vis (publishOp m) fun _ =>
      Prog.vis (.comm .sendSema) fun _ => Prog.ret ()).ReleasesLast :=
    fun m => Or.inr ⟨rfl, fun _ _ => hrel⟩
  have hclose : ∀ m, (Prog.vis (.connClose conn) fun _ => Prog.vis (publishOp m) fun _ =>
      Prog.vis (.comm .sendSema) fun _ => Prog.ret ()).ReleasesLast :=
    fun m => Or.inr ⟨rfl, fun _ _ => hpub m⟩
  simp only [doHandshake, Prog.defer, bind, pure, Prog.bind, perform, NewBrontideMachine,
    rejectConn, acceptConn, SetReadDeadline, DoHandshake, connClose]
  refine Or.inr ⟨rfl, ?_⟩
  simp only [Op.valid_pollQuit]
  rintro r0 (rfl | rfl)
  · exact hrel
  · refine Or.inr ⟨rfl, ?_⟩
    simp only [Op.valid_newBrontideMachine]
    rintro r1 (⟨noise, rfl⟩ | ⟨e, rfl⟩)
    · refine Or.inr ⟨rfl, ?_⟩
      simp only [Op.valid_setReadDeadline]
      rintro r2 (rfl | ⟨e, rfl⟩)
      · simp only [Resp.toError, ite_error_none, Prog.bind]
        refine Or.inr ⟨rfl, ?_⟩
        simp only [Op.valid_doHandshake]
        rintro r3 (rfl | ⟨e, rfl⟩)
        · simp only [Resp.toError, ite_error_none, Prog.bind]
          refine Or.inr ⟨rfl, ?_⟩
          simp only [Op.valid_pollQuit]
          rintro r4 (rfl | rfl)
          · exact hrel
          · refine Or.inr ⟨rfl, ?_⟩
            simp only [Op.valid_setReadDeadline]
            rintro r5 (rfl | ⟨e, rfl⟩)
            · simp only [Resp.toError, ite_error_none, Prog.bind]
              exact hpub _
            · simp only [Resp.toError, ite_error_some, Prog.bind]
              exact hclose _
        · simp only [Resp.toError, ite_error_some, Prog.bind]
          exact hclose _
      · simp only [Resp.toError, ite_error_some, Prog.bind]
        exact hclose _
    · exact hpub _

theorem listen_head : listen.head = some acquireOp := rfl

theorem listen_next_quit : listen.next (.chose 1) = .ret false := rfl

theorem listen_next_acquired : (listen.next (.chose 0)).HandsOver := by
  simp only [listen, bind, pure, Prog.bind, perform, tcpAccept, rejectConn, Prog.next]
  refine Or.inr ⟨rfl, ?_⟩
  simp only [Op.valid_tcpAccept]
  rintro r1 (⟨c, rfl⟩ | ⟨e, rfl⟩)
  · exact Or.inl ⟨Or.inr ⟨c, rfl⟩, fun _ _ => rfl⟩
  · exact Or.inr ⟨rfl, fun _ _ => Or.inl ⟨Or.inl rfl, fun _ _ => rfl⟩⟩

theorem sum_permits_set (gs : List Goroutine) (i : Nat) (g g1 : Goroutine)
    (h : gs[i]? = some g) :
    ((gs.set i g1).map Goroutine.permits).sum + g.permits
      = (gs.map Goroutine.permits).sum + g1.permits := by
  induction gs generalizing i with
  | nil => simp at h
  | cons a gs ih =>
    cases i with
    | zero =>
      simp only [List.getElem?_cons_zero, Option.some.injEq] at h
      subst h
      simp only [List.set_cons_zero, List.map_cons, List.sum_cons]
      omega
    | succ i =>
      simp only [List.getElem?_cons_succ] at h
      have := ih i h
      simp only [List.set_cons_succ, List.map_cons, List.sum_cons]
      omega

theorem Op.quiet_effect (o : Op) (l : Listener) (r : Resp) (h : o.quiet = true) :
    o.effect l r = l := by
  cases o with
  | select cs d =>
    cases r with
    | chose i =>
      simp only [Op.effect]
      cases hc : cs[i]? with
      | none => rfl
      | some c =>
        have hmem : c ∈ cs := List.getElem?_mem hc
        simp only [Op.quiet, List.all_eq_true] at h
        have := h c hmem
        cases c <;> simp_all [Comm.apply]
    | _ => rfl
  | comm c => cases c <;> simp_all [Op.quiet, Op.effect, Comm.apply]
  | closeQuit => simp [Op.quiet] at h
  | tcpClose => simp [Op.quiet] at h
  | _ => cases r <;> rfl

theorem Op.quiet_spawned (o : Op) (l : Listener) (h : o.quiet = true) :
    o.spawned l = [] := by
  cases o <;> first | rfl | simp [Op.quiet] at h

theorem Op.quiet_ne_closeQuit (o : Op) (h : o.quiet = true) : o ≠ .closeQuit := by
  rintro rfl
  simp [Op.quiet] at h

theorem Prog.HandsOver.result_eq {p : Prog Bool} (h : p.HandsOver) : p.result = none := by
  cases p with
  | ret a => exact absurd h (by simp [Prog.HandsOver])
  | vis o k => rfl

theorem Prog.HandsOver.permits_listen {p : Prog Bool} (h : p.HandsOver) (lg : List Event) :
    (Goroutine.mk (.listen p) lg).permits = 1 := by
  cases p with
  | ret a => exact absurd h (by simp [Prog.HandsOver])
  | vis o k =>
    have ho : o ≠ acquireOp := by
      rintro rfl
      rcases h with ⟨h1 | ⟨c, h1⟩, _⟩ | ⟨h1, _⟩
      · exact absurd h1 (by decide)
      · exact absurd h1 (by simp)
      · exact absurd h1 (by decide)
    simp [Goroutine.permits, Prog.head, ho]

theorem Prog.ReleasesLast.permits_handshake {p : Prog Unit} (h : p.ReleasesLast) (c : RawConn)
    (lg : List Event) : (Goroutine.mk (.handshake c p) lg).permits = 1 := by
  cases p with
  | ret a => exact absurd h (by simp [Prog.ReleasesLast])
  | vis o k => simp [Goroutine.permits, Prog.head]

theorem Goroutine.permits_of_head_none (g : Goroutine) (h : g.code.head = none) :
    g.permits = 0 := by
  rcases g with ⟨code, lg⟩
  cases code with
  | listen p => simp [Goroutine.permits, Code.head] at h ⊢; simp [h]
  | handshake c p => simp [Goroutine.permits, Code.head] at h ⊢; simp [h]

theorem permits_listen_top (lg : List Event) :
    (Goroutine.mk (.listen listen) lg).permits = 0 := by
  simp only [Goroutine.permits, listen_head]
  rfl

theorem permits_listen_returned (lg : List Event) (b : Bool) :
    (Goroutine.mk (.listen (.ret b)) lg).permits = 0 := rfl

/-- One operation of a goroutine that is where `Goroutine.Sound` says: the
goroutine stays there, the operation is no `close(l.quit)` and leaves `l.quit`
and `l.tcp` alone, and permits are neither made nor lost. -/
theorem Goroutine.Sound.advance_step (g : Goroutine) (l : Listener) (o : Op) (r : Resp)
    (hs : g.Sound) (hh : g.code.head = some o) (hv : o.valid r = true)
    (he : o.enabled l r = true) :
    (g.advance o r).Sound
      ∧ o ≠ .closeQuit
      ∧ (o.effect l r).quit = l.quit
      ∧ (o.effect l r).tcpClosed = l.tcpClosed
      ∧ (∀ g1 ∈ o.spawned l, g1.Sound)
      ∧ (o.effect l r).handshakeSema + (g.advance o r).permits
          + ((o.spawned l).map Goroutine.permits).sum
        = l.handshakeSema + g.permits := by
  rcases g with ⟨code, lg⟩
  cases code with
  | listen p =>
    rcases hs with rfl | hs | rfl
    · -- at the top of a pass
      simp only [Code.head, listen_head, Option.some.injEq] at hh
      subst hh
      rcases (Op.valid_acquire r).1 hv with rfl | rfl
      · have hn := listen_next_acquired
        have hp := hn.permits_listen (lg ++ [⟨acquireOp, .chose 0⟩])
        have hpos : 0 < l.handshakeSema := by simpa [Op.enabled, Comm.ready] using he
        refine ⟨?_, by decide, rfl, rfl, by simp [Op.spawned], ?_⟩
        · simp only [Goroutine.advance, Code.next, hn.result_eq]
          exact Or.inr (Or.inl hn)
        · simp only [Goroutine.advance, Code.next, hn.result_eq] at hp ⊢
          rw [hp, permits_listen_top]
          simp only [Op.effect, List.getElem?_cons_zero, Comm.apply, Op.spawned, List.map_nil,
            List.sum_nil]
          omega
      · refine ⟨?_, by decide, rfl, rfl, by simp [Op.spawned], ?_⟩
        · simp only [Goroutine.advance, Code.next, listen_next_quit, Prog.result]
          exact Or.inr (Or.inr rfl)
        · simp only [Goroutine.advance, Code.next, listen_next_quit, Prog.result]
          rw [permits_listen_top, permits_listen_returned]
          rfl
    · -- holding a permit
      have hp := hs.permits_listen lg
      cases p with
      | ret a => exact absurd hs (by simp [Prog.HandsOver])
      | vis o1 k =>
        simp only [Code.head, Prog.head, Option.some.injEq] at hh
        subst hh
        rcases hs with ⟨h1, hk⟩ | ⟨hq, hk⟩
        · have hkr := hk r hv
          have hadv : (Goroutine.mk (.listen (.vis o1 k)) lg).advance o1 r
              = ⟨.listen listen, lg ++ [⟨o1, r⟩]⟩ := by
            simp [Goroutine.advance, Code.next, Prog.next, hkr, Prog.result]
          rw [hadv, hp]
          rcases h1 with rfl | ⟨c, rfl⟩
          · have hlt : l.handshakeSema < defaultHandshakes := by
              simpa [Op.enabled, Comm.ready] using he
            refine ⟨Or.inl rfl, by decide, rfl, rfl, by simp [Op.spawned], ?_⟩
            rw [permits_listen_top]
            simp [Op.effect, Comm.apply, Op.spawned]
          · refine ⟨Or.inl rfl, by simp, rfl, rfl, ?_, ?_⟩
            · intro g1 hg1
              simp only [Op.spawned, List.mem_singleton] at hg1
              subst hg1
              exact Or.inr (doHandshake_releasesLast l c)
            · have := (doHandshake_releasesLast l c).permits_handshake c []
              rw [permits_listen_top]
              simp only [Op.effect, Op.spawned, List.map_cons, List.map_nil, List.sum_cons,
                List.sum_nil, this]
              omega
        · have hkr := hk r hv
          have hadv : (Goroutine.mk (.listen (.vis o1 k)) lg).advance o1 r
              = ⟨.listen (k r), lg ++ [⟨o1, r⟩]⟩ := by
            simp [Goroutine.advance, Code.next, Prog.next, hkr.result_eq]
          rw [hadv, hp, hkr.permits_listen]
          refine ⟨Or.inr (Or.inl hkr), Op.quiet_ne_closeQuit _ hq, ?_, ?_, ?_, ?_⟩
          · rw [Op.quiet_effect _ _ _ hq]
          · rw [Op.quiet_effect _ _ _ hq]
          · simp [Op.quiet_spawned _ _ hq]
          · simp [Op.quiet_effect _ _ _ hq, Op.quiet_spawned _ _ hq]
    · simp [Code.head, Prog.head] at hh
  | handshake c p =>
    rcases hs with hs | hs
    · simp only [Code.head] at hh hs
      rw [hs] at hh
      exact absurd hh (by simp)
    · have hp := hs.permits_handshake c lg
      cases p with
      | ret a => exact absurd hs (by simp [Prog.ReleasesLast])
      | vis o1 k =>
        simp only [Code.head, Prog.head, Option.some.injEq] at hh
        subst hh
        have hadv : (Goroutine.mk (.handshake c (.vis o1 k)) lg).advance o1 r
            = ⟨.handshake c (k r), lg ++ [⟨o1, r⟩]⟩ := rfl
        rw [hadv, hp]
        rcases hs with ⟨rfl, hk⟩ | ⟨hq, hk⟩
        · have hkr := hk r hv
          have hlt : l.handshakeSema < defaultHandshakes := by
            simpa [Op.enabled, Comm.ready] using he
          refine ⟨Or.inl hkr, by decide, rfl, rfl, by simp [Op.spawned], ?_⟩
          have := Goroutine.permits_of_head_none
            ⟨.handshake c (k r), lg ++ [⟨.comm .sendSema, r⟩]⟩ hkr
          simp [this, Op.effect, Comm.apply, Op.spawned]
        · have hkr := hk r hv
          rw [hkr.permits_handshake]
          refine ⟨Or.inr hkr, Op.quiet_ne_closeQuit _ hq, ?_, ?_, ?_, ?_⟩
          · rw [Op.quiet_effect _ _ _ hq]
          · rw [Op.quiet_effect _ _ _ hq]
          · simp [Op.quiet_spawned _ _ hq]
          · simp [Op.quiet_effect _ _ _ hq, Op.quiet_spawned _ _ hq]

theorem offerIn_spec (cs : List Comm) (i : Nat) (r : Resp) (m : maybeConn)
    (h : offerIn cs i = some (r, m)) :
    ∃ j, r = .chose (i + j) ∧ cs[j]? = some (.sendConns m) := by
  induction cs generalizing i with
  | nil => simp [offerIn] at h
  | cons c cs ih =>
    cases c with
    | sendConns m1 =>
      simp only [offerIn, Option.some.injEq, Prod.mk.injEq] at h
      exact ⟨0, by simp [h.1.symm], by simp [h.2]⟩
    | _ =>
      simp only [offerIn] at h
      obtain ⟨j, hj, hc⟩ := ih (i + 1) h
      exact ⟨j + 1, by rw [hj]; congr 1; omega, by simpa using hc⟩

theorem Op.offer_valid (o : Op) (r : Resp) (m : maybeConn) (h : o.offer = some (r, m)) :
    o.valid r = true := by
  cases o with
  | select cs d =>
    obtain ⟨j, rfl, hc⟩ := offerIn_spec cs 0 r m h
    simp [Op.valid, hc]
  | comm c =>
    cases c with
    | sendConns m1 =>
      simp only [Op.offer, Option.some.injEq, Prod.mk.injEq] at h
      simp [Op.valid, ← h.1]
    | _ => simp [Op.offer] at h
  | _ => simp [Op.offer] at h

/-- A send on `l.conns` completed by a goroutine that is where
`Goroutine.Sound` says: it stays there and holds what it held. -/
theorem Goroutine.Sound.advance_handoff (g : Goroutine) (o : Op) (r : Resp) (m : maybeConn)
    (hs : g.Sound) (hh : g.code.head = some o) (ho : o.offer = some (r, m)) :
    (g.advance o r).Sound ∧ (g.advance o r).permits = g.permits := by
  have hv := Op.offer_valid o r m ho
  rcases g with ⟨code, lg⟩
  cases code with
  | listen p =>
    rcases hs with rfl | hs | rfl
    · simp only [Code.head, listen_head, Option.some.injEq] at hh
      subst hh
      simp [Op.offer, offerIn] at ho
    · have hp := hs.permits_listen lg
      cases p with
      | ret a => exact absurd hs (by simp [Prog.HandsOver])
      | vis o1 k =>
        simp only [Code.head, Prog.head, Option.some.injEq] at hh
        subst hh
        rcases hs with ⟨h1, _⟩ | ⟨_, hk⟩
        · rcases h1 with rfl | ⟨c, rfl⟩ <;> simp [Op.offer] at ho
        · have hkr := hk r hv
          have hadv : (Goroutine.mk (.listen (.vis o1 k)) lg).advance o1 r
              = ⟨.listen (k r), lg ++ [⟨o1, r⟩]⟩ := by
            simp [Goroutine.advance, Code.next, Prog.next, hkr.result_eq]
          rw [hadv, hp, hkr.permits_listen]
          exact ⟨Or.inr (Or.inl hkr), rfl⟩
    · simp [Code.head, Prog.head] at hh
  | handshake c p =>
    rcases hs with hs | hs
    · simp only [Code.head] at hh hs
      rw [hs] at hh
      exact absurd hh (by simp)
    · have hp := hs.permits_handshake c lg
      cases p with
      | ret a => exact absurd hs (by simp [Prog.ReleasesLast])
      | vis o1 k =>
        simp only [Code.head, Prog.head, Option.some.injEq] at hh
        subst hh
        have hadv : (Goroutine.mk (.handshake c (.vis o1 k)) lg).advance o1 r
            = ⟨.handshake c (k r), lg ++ [⟨o1, r⟩]⟩ := rfl
        rw [hadv, hp]
        rcases hs with ⟨rfl, _⟩ | ⟨_, hk⟩
        · simp [Op.offer] at ho
        · have hkr := hk r hv
          rw [hkr.permits_handshake]
          exact ⟨Or.inr hkr, rfl⟩

theorem foldl_sendSema (xs : List Nat) (l : Listener) :
    (xs.foldl (fun l _ => Comm.apply l .sendSema) l)
      = { l with handshakeSema := l.handshakeSema + xs.length } := by
  induction xs generalizing l with
  | nil => rfl
  | cons x xs ih =>
    have : l.handshakeSema + 1 + xs.length = l.handshakeSema + (xs.length + 1) := by omega
    rw [List.foldl_cons, ih]
    simp only [Comm.apply, List.length_cons, this]

theorem State.Inv.of_initial (s : State) (h : s.initial) : s.Inv := by
  obtain ⟨pp, ls, la, ad, h⟩ := h
  simp only [NewListener, foldl_sendSema, List.length_range, Except.ok.injEq] at h
  subst h
  exact ⟨rfl, rfl, by simp [State.permitsHeld, permits_listen_top],
    by
      intro g hg
      simp only [List.mem_singleton] at hg
      subst hg
      exact Or.inl rfl⟩

theorem State.exec_eq (s s1 : State) (o : Op) (r : Resp) (h : s.exec o r = some s1) :
    o.valid r = true ∧ o.enabled s.l r = true
      ∧ s1 = { l := o.effect s.l r,
               panicked := s.panicked || (o == .closeQuit && s.l.quit),
               quitCloses := s.quitCloses + (if o = .closeQuit then 1 else 0),
               goroutines := s.goroutines ++ o.spawned s.l } := by
  unfold State.exec at h
  split at h
  · rename_i hc
    simp only [Bool.and_eq_true] at hc
    simp only [Option.some.injEq] at h
    exact ⟨hc.1, hc.2, h.symm⟩
  · simp at h

theorem State.run_eq (s s2 : State) (i : Nat) (r : Resp) (h : s.run i r = some s2) :
    ∃ g o, s.goroutines[i]? = some g ∧ g.code.head = some o ∧ o.valid r = true
      ∧ o.enabled s.l r = true
      ∧ s2 = { l := o.effect s.l r,
               panicked := s.panicked || (o == .closeQuit && s.l.quit),
               quitCloses := s.quitCloses + (if o = .closeQuit then 1 else 0),
               goroutines := (s.goroutines ++ o.spawned s.l).set i (g.advance o r) } := by
  unfold State.run at h
  cases hg : s.goroutines[i]? with
  | none => simp [hg] at h
  | some g =>
    simp only [hg] at h
    cases hh : g.code.head with
    | none => simp [hh] at h
    | some o =>
      simp only [hh] at h
      cases hx : s.exec o r with
      | none => simp [hx] at h
      | some s1 =>
        simp only [hx, Option.some.injEq] at h
        obtain ⟨hv, he, rfl⟩ := State.exec_eq s s1 o r hx
        exact ⟨g, o, rfl, hh, hv, he, h.symm⟩

theorem State.handoff_eq (s s2 : State) (i : Nat) (m : maybeConn)
    (h : s.handoff i m = some s2) :
    ∃ g o r, s.l.quit = false ∧ s.goroutines[i]? = some g ∧ g.code.head = some o
      ∧ o.offer = some (r, m)
      ∧ s2 = { s with goroutines := s.goroutines.set i (g.advance o r) } := by
  unfold State.handoff at h
  cases hq : s.l.quit with
  | true => simp [hq] at h
  | false =>
    simp only [hq, Bool.false_eq_true, ↓reduceIte] at h
    cases hg : s.goroutines[i]? with
    | none => simp [hg] at h
    | some g =>
      simp only [hg] at h
      cases hh : g.code.head with
      | none => simp [hh] at h
      | some o =>
        simp only [hh] at h
        cases ho : o.offer with
        | none => simp [ho] at h
        | some x =>
          obtain ⟨r, m1⟩ := x
          simp only [ho] at h
          split at h
          · rename_i hm
            subst hm
            simp only [Option.some.injEq] at h
            exact ⟨g, o, r, rfl, rfl, hh, ho, h.symm⟩
          · simp at h

theorem State.Inv.run_inv (s s2 : State) (i : Nat) (r : Resp) (hinv : s.Inv)
    (h : s.run i r = some s2) :
    s2.Inv ∧ s2.l.quit = s.l.quit ∧ s2.l.tcpClosed = s.l.tcpClosed := by
  obtain ⟨g, o, hg, hh, hv, he, rfl⟩ := State.run_eq s s2 i r h
  have hgm : g ∈ s.goroutines := List.getElem?_mem hg
  obtain ⟨h1, h2, h3, h4, h5, h6⟩ :=
    Goroutine.Sound.advance_step g s.l o r (hinv.sound g hgm) hh hv he
  have hlt : i < s.goroutines.length := by
    rcases Nat.lt_or_ge i s.goroutines.length with hlt | hge
    · exact hlt
    · rw [List.getElem?_eq_none hge] at hg
      exact absurd hg (by simp)
  have hg2 : (s.goroutines ++ o.spawned s.l)[i]? = some g := by
    rw [List.getElem?_append_left hlt]
    exact hg
  refine ⟨⟨?_, ?_, ?_, ?_⟩, h3, h4⟩
  · simp [hinv.running, h2]
  · simp only [h2, ↓reduceIte, Nat.add_zero, h3]
    exact hinv.closes
  · have hsum := sum_permits_set _ i g (g.advance o r) hg2
    have hp := hinv.permits
    simp only [State.permitsHeld, List.map_append, List.sum_append] at hsum hp ⊢
    omega
  · intro g1 hg1
    rcases List.mem_or_eq_of_mem_set hg1 with hg1 | rfl
    · rcases List.mem_append.1 hg1 with hg1 | hg1
      · exact hinv.sound g1 hg1
      · exact h5 g1 hg1
    · exact h1

theorem State.Inv.handoff_inv (s s2 : State) (i : Nat) (m : maybeConn) (hinv : s.Inv)
    (h : s.handoff i m = some s2) :
    s2.Inv ∧ s2.l = s.l ∧ s.l.quit = false ∧ ∃ g ∈ s.goroutines, g.offer = some m := by
  obtain ⟨g, o, r, hq, hg, hh, ho, rfl⟩ := State.handoff_eq s s2 i m h
  have hgm : g ∈ s.goroutines := List.getElem?_mem hg
  obtain ⟨h1, h2⟩ := Goroutine.Sound.advance_handoff g o r m (hinv.sound g hgm) hh ho
  refine ⟨⟨hinv.running, hinv.closes, ?_, ?_⟩, rfl, hq, g, hgm, ?_⟩
  · have hsum := sum_permits_set _ i g (g.advance o r) hg
    have hp := hinv.permits
    simp only [State.permitsHeld] at hsum hp ⊢
    omega
  · intro g1 hg1
    rcases List.mem_or_eq_of_mem_set hg1 with hg1 | rfl
    · exact hinv.sound g1 hg1
    · exact h1
  · simp [Goroutine.offer, hh, ho]

/-! ### Calls of `Accept` and `Close` -/

theorem Accept_eq : Accept = .vis acceptOp (fun r =>
    match r with
    | .recvd _ result => .ret (.ofNoiseConn result.conn, result.err)
    | _ => .ret (.nil, some (errorsNew "brontide connection closed"))) := by
  simp only [Accept, bind, pure, Prog.bind, perform]

theorem Close_eq : Close = .vis pollQuitOp (fun r =>
    match r with
    | .dflt => .vis .closeQuit (fun _ => .vis .tcpClose (fun r => .ret r.toError))
    | _ => .vis .tcpClose (fun r => .ret r.toError)) := by
  simp only [Close, bind, pure, Prog.bind, perform, tcpClose]

theorem Op.valid_acceptOp (r : Resp) :
    acceptOp.valid r = true ↔ (∃ m, r = .recvd 0 m) ∨ r = .chose 1 := by
  cases r with
  | chose i => rcases i with _ | _ | i <;> simp [Op.valid]
  | recvd i m => rcases i with _ | _ | i <;> simp [Op.valid]
  | _ => simp [Op.valid]

/-- What a call of `Accept` does: it receives an outcome a goroutine offers
and returns its two fields, or it finds `l.quit` closed and returns the
"brontide connection closed" error. -/
theorem State.call_Accept (s : State) (r : Resp) (i : Nat)
    (out : Option (NetConn × error) × List Event × State) (hp : s.panicked = false)
    (h : s.call Accept [(r, i)] = some out) :
    (∃ m, r = .recvd 0 m ∧ s.handoff i m = some out.2.2
        ∧ out.1 = some (.ofNoiseConn m.conn, m.err) ∧ out.2.1 = [⟨acceptOp, r⟩])
      ∨ (r = .chose 1 ∧ s.l.quit = true
        ∧ out = (some (.nil, some (errorsNew "brontide connection closed")),
            [⟨acceptOp, .chose 1⟩], s)) := by
  rw [Accept_eq] at h
  cases r with
  | recvd j m =>
    simp only [State.call] at h
    split at h
    · simp at h
    · rename_i s1 hs1
      split at hs1
      · rename_i hv
        rcases (Op.valid_acceptOp _).1 hv with ⟨m1, hm1⟩ | hm1
        · simp only [Resp.recvd.injEq] at hm1
          obtain ⟨rfl, rfl⟩ := hm1
          obtain ⟨g, o, r1, _, hg, hh, ho, rfl⟩ := State.handoff_eq s s1 i m hs1
          simp only [hp, Bool.false_eq_true, ↓reduceIte, Option.some.injEq] at h
          subst h
          exact Or.inl ⟨m, rfl, by simpa [hp] using hs1, rfl, rfl⟩
        · simp at hm1
      · simp at hs1
  | chose j =>
    simp only [State.call] at h
    split at h
    · simp at h
    · rename_i s1 hs1
      obtain ⟨hv, he, rfl⟩ := State.exec_eq s s1 _ _ hs1
      rcases (Op.valid_acceptOp _).1 hv with ⟨m1, hm1⟩ | hm1
      · simp at hm1
      · simp only [Resp.chose.injEq] at hm1
        subst hm1
        have hq : s.l.quit = true := by simpa [Op.enabled, Comm.ready] using he
        simp [hp, Op.effect, Comm.apply, Op.spawned] at h
        subst h
        refine Or.inr ⟨rfl, hq, ?_⟩
        cases s
        simp_all
  | _ =>
    simp only [State.call] at h
    split at h
    · simp at h
    · rename_i s1 hs1
      obtain ⟨hv, _, _⟩ := State.exec_eq s s1 _ _ hs1
      simp [Op.valid] at hv

theorem Op.valid_tcpClose (r : Resp) :
    Op.tcpClose.valid r = true ↔ r = .ok ∨ ∃ e, r = .err e := by
  cases r <;> simp [Op.valid]

theorem Op.valid_closeQuit (r : Resp) :
    Op.closeQuit.valid r = true ↔ r = .ok := by
  cases r <;> simp [Op.valid]

theorem State.call_vis {α : Type} (s : State) (o : Op) (k : Resp → Prog α) (r : Resp)
    (i : Nat) (rs : List (Resp × Nat)) (out : Option α × List Event × State)
    (hr : ∀ j m, r ≠ .recvd j m)
    (h : s.call (.vis o k) ((r, i) :: rs) = some out) :
    ∃ s1, s.exec o r = some s1
      ∧ ((s1.panicked = true ∧ out = (none, [⟨o, r⟩], s1))
        ∨ (s1.panicked = false
          ∧ ∃ a es s2, s1.call (k r) rs = some (a, es, s2) ∧ out = (a, ⟨o, r⟩ :: es, s2))) := by
  have hx : (match r with
      | .recvd _ m => if o.valid r then s.handoff i m else none
      | _ => s.exec o r) = s.exec o r := by
    cases r <;> first | rfl | exact absurd rfl (hr _ _)
  simp only [State.call, hx] at h
  cases hs1 : s.exec o r with
  | none => simp [hs1] at h
  | some s1 =>
    simp only [hs1] at h
    refine ⟨s1, rfl, ?_⟩
    cases hpan : s1.panicked with
    | true =>
      simp only [hpan, ↓reduceIte, Option.some.injEq] at h
      exact Or.inl ⟨rfl, h.symm⟩
    | false =>
      simp only [hpan, Bool.false_eq_true, ↓reduceIte] at h
      cases hc : s1.call (k r) rs with
      | none => simp [hc] at h
      | some x =>
        obtain ⟨a, es, s2⟩ := x
        simp only [hc, Option.some.injEq] at h
        exact Or.inr ⟨rfl, a, es, s2, rfl, h.symm⟩

theorem State.call_vis_recvd {α : Type} (s : State) (o : Op) (k : Resp → Prog α) (j : Nat)
    (m : maybeConn) (i : Nat) (rs : List (Resp × Nat))
    (hv : o.valid (.recvd j m) = false) :
    s.call (.vis o k) ((.recvd j m, i) :: rs) = none := by
  simp only [State.call, hv]
  rfl

theorem Op.invalid_pollQuit_recvd (j : Nat) (m : maybeConn) :
    pollQuitOp.valid (.recvd j m) = false := by
  cases h : pollQuitOp.valid (.recvd j m) with
  | false => rfl
  | true => exact absurd ((Op.valid_pollQuit _).1 h) (by simp)

theorem State.call_ret {α : Type} (s : State) (a : α) (rs : List (Resp × Nat))
    (out : Option α × List Event × State) (h : s.call (.ret a) rs = some out) :
    rs = [] ∧ out = (some a, [], s) := by
  cases rs with
  | nil =>
    simp only [State.call, Option.some.injEq] at h
    exact ⟨rfl, h.symm⟩
  | cons x rs => simp [State.call] at h

/-- What `l.tcp.Close()` does as the last operation of `Close`. -/
theorem State.call_tcpClose (s : State) (rs : List (Resp × Nat))
    (out : Option error × List Event × State) (hp : s.panicked = false)
    (h : s.call (.vis .tcpClose (fun r => .ret r.toError)) rs = some out) :
    ∃ r2 : Resp, (r2 = .ok ∧ s.l.tcpClosed = false ∨ ∃ e, r2 = .err e)
      ∧ out = (some r2.toError, [⟨.tcpClose, r2⟩],
          { s with l := { s.l with tcpClosed := true } }) := by
  rcases rs with _ | ⟨⟨r2, i2⟩, rs⟩
  · simp [State.call] at h
  · have hr : ∀ j m, r2 ≠ .recvd j m := by
      rintro j m rfl
      rw [State.call_vis_recvd s .tcpClose _ j m _ _ rfl] at h
      exact absurd h (by simp)
    obtain ⟨s1, hs1, hcase⟩ := State.call_vis s _ _ r2 i2 rs out hr h
    obtain ⟨hv, he, rfl⟩ := State.exec_eq s s1 _ _ hs1
    have hs1p : (s.panicked || (Op.tcpClose == Op.closeQuit && s.l.quit)) = false := by
      simp [hp]
    rcases hcase with ⟨hpan, _⟩ | ⟨_, a, es, s2, hc, rfl⟩
    · rw [hs1p] at hpan
      exact absurd hpan (by simp)
    · obtain ⟨rfl, hout⟩ := State.call_ret _ _ _ _ hc
      simp only [Prod.mk.injEq] at hout
      obtain ⟨rfl, rfl, rfl⟩ := hout
      refine ⟨r2, ?_, ?_⟩
      · rcases (Op.valid_tcpClose r2).1 hv with rfl | ⟨e, rfl⟩
        · left
          exact ⟨rfl, by simpa [Op.enabled] using he⟩
        · exact Or.inr ⟨e, rfl⟩
      · simp [hp, Op.effect, Op.spawned]

/-- What a call of `Close` does.  With `l.quit` open it closes `l.quit`, then
`l.tcp`; with `l.quit` closed it only closes `l.tcp`.  It returns what
`l.tcp.Close()` returned, which is an error when `l.tcp` was closed before. -/
theorem State.call_Close (s : State) (rs : List (Resp × Nat))
    (out : Option error × List Event × State) (hp : s.panicked = false)
    (h : s.call Close rs = some out) :
    ∃ r2 : Resp, (r2 = .ok ∧ s.l.tcpClosed = false ∨ ∃ e, r2 = .err e)
      ∧ out.1 = some r2.toError
      ∧ ((s.l.quit = false
          ∧ out.2.1 = [⟨pollQuitOp, .dflt⟩, ⟨.closeQuit, .ok⟩, ⟨.tcpClose, r2⟩]
          ∧ out.2.2 = { s with l := { s.l with quit := true, tcpClosed := true },
                               quitCloses := s.quitCloses + 1 })
        ∨ (s.l.quit = true
          ∧ out.2.1 = [⟨pollQuitOp, .chose 0⟩, ⟨.tcpClose, r2⟩]
          ∧ out.2.2 = { s with l := { s.l with tcpClosed := true } })) := by
  rw [Close_eq] at h
  rcases rs with _ | ⟨⟨r0, i0⟩, rs⟩
  · simp [State.call] at h
  · have hr : ∀ j m, r0 ≠ .recvd j m := by
      rintro j m rfl
      rw [State.call_vis_recvd _ _ _ _ _ _ _ (Op.invalid_pollQuit_recvd j m)] at h
      exact absurd h (by simp)
    obtain ⟨s1, hs1, hcase⟩ := State.call_vis s _ _ r0 i0 rs out hr h
    obtain ⟨hv, he, rfl⟩ := State.exec_eq s s1 _ _ hs1
    have hs1p : (s.panicked || (pollQuitOp == Op.closeQuit && s.l.quit)) = false := by
      simp [hp]
    rcases hcase with ⟨hpan, _⟩ | ⟨_, a, es, s2, hc, rfl⟩
    · rw [hs1p] at hpan
      exact absurd hpan (by simp)
    · rcases (Op.valid_pollQuit r0).1 hv with rfl | rfl
      · -- `case <-l.quit:`
        have hq : s.l.quit = true := by simpa [Op.enabled, Comm.ready] using he
        obtain ⟨r2, hr2, hout⟩ := State.call_tcpClose _ rs (a, es, s2) hs1p hc
        simp only [Prod.mk.injEq] at hout
        obtain ⟨rfl, rfl, rfl⟩ := hout
        refine ⟨r2, ?_, rfl, Or.inr ⟨hq, rfl, ?_⟩⟩
        · simpa [Op.effect, Comm.apply] using hr2
        · simp [hp, Op.effect, Comm.apply, Op.spawned]
      · -- `default: close(l.quit)`
        have hq : s.l.quit = false := by simpa [Op.enabled, Comm.ready] using he
        rcases rs with _ | ⟨⟨r1, i1⟩, rs⟩
        · simp [State.call] at hc
        · have hr1 : ∀ j m, r1 ≠ .recvd j m := by
            rintro j m rfl
            rw [State.call_vis_recvd _ .closeQuit _ j m _ _ rfl] at hc
            exact absurd hc (by simp)
          obtain ⟨s3, hs3, hcase⟩ := State.call_vis _ _ _ r1 i1 rs _ hr1 hc
          obtain ⟨hv1, _, rfl⟩ := State.exec_eq _ s3 _ _ hs3
          have hr1ok := (Op.valid_closeQuit r1).1 hv1
          subst hr1ok
          rcases hcase with ⟨hpan, _⟩ | ⟨hpan, a1, es1, s4, hc1, hout⟩
          · simp [hp, hq, Op.effect] at hpan
          · obtain ⟨r2, hr2, hout2⟩ := State.call_tcpClose _ rs (a1, es1, s4) hpan hc1
            simp only [Prod.mk.injEq] at hout hout2
            obtain ⟨rfl, rfl, rfl⟩ := hout2
            obtain ⟨rfl, rfl, rfl⟩ := hout
            refine ⟨r2, ?_, rfl, Or.inl ⟨hq, rfl, ?_⟩⟩
            · simpa [Op.effect] using hr2
            · simp [hp, hq, Op.effect, Op.spawned]

/-! ### Every reachable state -/

theorem State.Inv.accept_inv (s : State) (r : Resp) (i : Nat)
    (out : Option (NetConn × error) × List Event × State) (hinv : s.Inv)
    (h : s.call Accept [(r, i)] = some out) :
    out.2.2.Inv ∧ out.2.2.l = s.l := by
  rcases State.call_Accept s r i out hinv.running h with ⟨m, _, hh, _, _⟩ | ⟨_, _, rfl⟩
  · obtain ⟨h1, h2, _⟩ := State.Inv.handoff_inv s _ i m hinv hh
    exact ⟨h1, h2⟩
  · exact ⟨hinv, rfl⟩

theorem State.Inv.close_inv (s : State) (rs : List (Resp × Nat))
    (out : Option error × List Event × State) (hinv : s.Inv)
    (h : s.call Close rs = some out) :
    out.2.2.Inv ∧ out.2.2.l.quit = true ∧ out.2.2.l.tcpClosed = true := by
  obtain ⟨r2, _, _, hcase⟩ := State.call_Close s rs out hinv.running h
  have hp := hinv.permits
  have hc := hinv.closes
  rcases hcase with ⟨hq, _, hs⟩ | ⟨hq, _, hs⟩
  · rw [hs]
    refine ⟨⟨hinv.running, ?_, hp, hinv.sound⟩, rfl, rfl⟩
    simp [hq] at hc
    simp [hc]
  · rw [hs]
    exact ⟨⟨hinv.running, hc, hp, hinv.sound⟩, hq, rfl⟩

theorem State.Inv.step_inv (s s1 : State) (a : Action) (hinv : s.Inv) (h : s.step a = some s1) :
    s1.Inv ∧ (s.l.quit = true → s1.l.quit = true)
      ∧ (s.l.tcpClosed = true → s1.l.tcpClosed = true) := by
  simp only [State.step, hinv.running, Bool.false_eq_true, ↓reduceIte] at h
  cases a with
  | run i r =>
    obtain ⟨h1, h2, h3⟩ := State.Inv.run_inv s s1 i r hinv h
    exact ⟨h1, fun hq => h2 ▸ hq, fun ht => h3 ▸ ht⟩
  | accept r i =>
    simp only [Option.map_eq_some'] at h
    obtain ⟨out, hout, rfl⟩ := h
    obtain ⟨h1, h2⟩ := State.Inv.accept_inv s r i out hinv hout
    exact ⟨h1, fun hq => h2 ▸ hq, fun ht => h2 ▸ ht⟩
  | close rs =>
    simp only [Option.map_eq_some'] at h
    obtain ⟨out, hout, rfl⟩ := h
    obtain ⟨h1, h2, h3⟩ := State.Inv.close_inv s _ out hinv hout
    exact ⟨h1, fun _ => h2, fun _ => h3⟩

theorem Reachable.inv (s : State) (h : Reachable s) : s.Inv := by
  induction h with
  | init s h => exact State.Inv.of_initial s h
  | step s s1 a _ hstep ih => exact (State.Inv.step_inv s s1 a ih hstep).1

theorem State.Inv.steps_inv (s s1 : State) (as : List Action) (hinv : s.Inv)
    (hs : s.steps as = some s1) :
    s1.Inv ∧ (s.l.quit = true → s1.l.quit = true)
      ∧ (s.l.tcpClosed = true → s1.l.tcpClosed = true) := by
  induction as generalizing s with
  | nil =>
    simp only [State.steps, Option.some.injEq] at hs
    subst hs
    exact ⟨hinv, id, id⟩
  | cons a as ih =>
    simp only [State.steps] at hs
    cases hstep : s.step a with
    | none => simp [hstep] at hs
    | some s2 =>
      simp only [hstep] at hs
      obtain ⟨hinv2, hq, ht⟩ := State.Inv.step_inv s s2 a hinv hstep
      obtain ⟨h1, hq1, ht1⟩ := ih s2 hinv2 hs
      exact ⟨h1, fun x => hq1 (hq x), fun x => ht1 (ht x)⟩

theorem sampleState_initial : sampleState.initial :=
  ⟨[1, 2], 7, "127.0.0.1:0", [3], by
    simp only [NewListener, foldl_sendSema, List.length_range]
    rfl⟩

theorem sampleState_reachable : Reachable sampleState :=
  Reachable.init _ sampleState_initial

theorem closedState_reachable : Reachable closedState :=
  Reachable.step sampleState closedState (.close [.dflt, .ok, .ok]) sampleState_reachable rfl

theorem Reachable.of_steps (s s1 : State) (as : List Action) (h : Reachable s)
    (hs : s.steps as = some s1) : Reachable s1 := by
  induction as generalizing s with
  | nil =>
    simp only [State.steps, Option.some.injEq] at hs
    subst hs
    exact h
  | cons a as ih =>
    simp only [State.steps] at hs
    cases hstep : s.step a with
    | none => simp [hstep] at hs
    | some s2 =>
      simp only [hstep] at hs
      exact ih s2 (Reachable.step s s2 a h hstep) hs

theorem loopOfferingState_reachable : Reachable loopOfferingState :=
  Reachable.of_steps sampleState loopOfferingState closeDuringAccept sampleState_reachable rfl

theorem inFlight_le_permits (gs : List Goroutine) :
    (gs.filter Goroutine.inFlight).length ≤ (gs.map Goroutine.permits).sum := by
  induction gs with
  | nil => simp
  | cons g gs ih =>
    have hg : (if g.inFlight = true then 1 else 0) ≤ g.permits := by
      rcases g with ⟨code, lg⟩
      cases code with
      | listen p => simp [Goroutine.inFlight]
      | handshake c p =>
        simp only [Goroutine.inFlight, Goroutine.permits]
        split <;> simp
    simp only [List.filter_cons, List.map_cons, List.sum_cons]
    split
    · rename_i h
      simp only [h, ↓reduceIte] at hg
      simp only [List.length_cons]
      omega
    · omega

theorem permits_le_sum (gs : List Goroutine) (g : Goroutine) (h : g ∈ gs) :
    g.permits ≤ (gs.map Goroutine.permits).sum := by
  induction gs with
  | nil => simp at h
  | cons a gs ih =>
    simp only [List.map_cons, List.sum_cons]
    rcases List.mem_cons.1 h with rfl | h
    · omega
    · have := ih h
      omega

theorem permits_of_head_sendSema (g : Goroutine)
    (h : g.code.head = some (.comm .sendSema)) : g.permits = 1 := by
  rcases g with ⟨code, lg⟩
  cases code with
  | listen p =>
    simp only [Code.head] at h
    simp only [Goroutine.permits, h]
    rfl
  | handshake c p =>
    simp only [Code.head] at h
    simp [Goroutine.permits, h]

/-! ### The claims about the listener as a whole -/

/-- C3.  Permit conservation.  In every state reachable from `NewListener`
the permits in `l.handshakeSema` and the permits held by the accept loop's
current attempt and by the handshake goroutines in flight add up to 1000; at
most 1000 handshake goroutines are in flight; a goroutine about to send to
`l.handshakeSema` finds room and can take the step; every run of
`doHandshake` sends to `l.handshakeSema` exactly once and never receives from
it, and so does, after the one receive, a pass of the accept loop in which
`l.tcp.Accept()` fails. -/
theorem permit_conservation (s : State) (h : Reachable s) :
    s.l.handshakeSema + s.permitsHeld = 1000
      ∧ s.inFlight ≤ 1000
      ∧ (∀ i g, s.goroutines[i]? = some g → g.code.head = some (.comm .sendSema) →
          s.l.handshakeSema < 1000 ∧ (s.run i .ok).isSome = true)
      ∧ (∀ (l : Listener) (conn : RawConn) (env : Nat → Resp),
          (∀ e ∈ ((doHandshake l conn).exec env 0).1, e.op.valid e.resp = true) →
          (((doHandshake l conn).exec env 0).1.filter Event.releases).length = 1
            ∧ ∀ e ∈ ((doHandshake l conn).exec env 0).1, e.op ≠ acquireOp)
      ∧ (∀ (env : Nat → Resp) (err : GoError),
          (∀ e ∈ (listen.exec env 0).1, e.op.valid e.resp = true) →
          ⟨.tcpAccept, .err err⟩ ∈ (listen.exec env 0).1 →
          ((listen.exec env 0).1.filter Event.releases).length = 1
            ∧ ((listen.exec env 0).1.filter (fun e => e.op == acquireOp)).length = 1) := by
  have hinv := Reachable.inv s h
  have hp : s.l.handshakeSema + s.permitsHeld = 1000 := hinv.permits
  refine ⟨hp, ?_, ?_, ?_, ?_⟩
  · have := inFlight_le_permits s.goroutines
    simp only [State.inFlight, State.permitsHeld] at hp ⊢
    omega
  · intro i g hg hh
    have hgm : g ∈ s.goroutines := List.getElem?_mem hg
    have h1 := permits_of_head_sendSema g hh
    have h2 := permits_le_sum s.goroutines g hgm
    have hlt : s.l.handshakeSema < 1000 := by
      simp only [State.permitsHeld] at hp
      omega
    refine ⟨hlt, ?_⟩
    have he : Op.enabled s.l (.comm .sendSema) .ok = true := by
      simpa [Op.enabled, Comm.ready, defaultHandshakes] using hlt
    simp [State.run, hg, hh, State.exec, Op.valid, he]
  · intro l conn env hv
    have hl := doHandshake_log l conn env hv
    generalize ((doHandshake l conn).exec env 0).1 = log at hl
    cases hl with
    | quitAtStart => simp [Event.releases]
    | quitAfterHandshake => simp [Event.releases]
    | success noise r hr => rcases hr with rfl | rfl <;> simp [Event.releases]
    | machineError e r hr => rcases hr with rfl | rfl <;> simp [Event.releases]
    | deadlineError noise e rc r hrc hr =>
      rcases hr with rfl | rfl <;> rcases hrc with rfl | ⟨e1, rfl⟩ <;> simp [Event.releases]
    | handshakeError noise e rc r hrc hr =>
      rcases hr with rfl | rfl <;> rcases hrc with rfl | ⟨e1, rfl⟩ <;> simp [Event.releases]
    | clearError noise e rc r hrc hr =>
      rcases hr with rfl | rfl <;> rcases hrc with rfl | ⟨e1, rfl⟩ <;> simp [Event.releases]
  · intro env err hv he
    have hl := listen_log env hv
    generalize (listen.exec env 0).1 = log at hl he
    generalize (listen.exec env 0).2 = b at hl
    cases hl with
    | quit => simp at he
    | accepted c => simp at he
    | acceptError e r hr => rcases hr with rfl | rfl <;> simp [Event.releases]

/-- Witness of C3: the state `NewListener` returns, and the runs
`handshakeErrorRun` and `acceptErrorRun`. -/
theorem permit_conservation_witness :
    (Reachable sampleState
      ∧ (∀ e ∈ ((doHandshake sampleListener sampleConn).exec handshakeErrorRun 0).1,
          e.op.valid e.resp = true)
      ∧ (∀ e ∈ (listen.exec acceptErrorRun 0).1, e.op.valid e.resp = true)
      ∧ ⟨.tcpAccept, .err ⟨"too many open files"⟩⟩ ∈ (listen.exec acceptErrorRun 0).1)
    ∧ sampleState.l.handshakeSema + sampleState.permitsHeld = 1000
    ∧ sampleState.inFlight ≤ 1000
    ∧ (((doHandshake sampleListener sampleConn).exec handshakeErrorRun 0).1.filter
        Event.releases).length = 1
    ∧ ((listen.exec acceptErrorRun 0).1.filter Event.releases).length = 1 :=
  ⟨⟨sampleState_reachable, by decide, by decide, by decide⟩,
   (permit_conservation sampleState sampleState_reachable).1,
   (permit_conservation sampleState sampleState_reachable).2.1,
   ((permit_conservation sampleState sampleState_reachable).2.2.2.1
      sampleListener sampleConn handshakeErrorRun (by decide)).1,
   ((permit_conservation sampleState sampleState_reachable).2.2.2.2
      acceptErrorRun ⟨"too many open files"⟩ (by decide) (by decide)).1⟩

/-- C10.  The shutdown signal is single-use and monotone.  In every state
reachable by steps of the goroutines and calls of `Accept` and `Close` run one
at a time: the program has not panicked (no `close` of the closed `l.quit`
was attempted); `close(l.quit)` has been executed at most once, and once
exactly when `l.quit` is closed; a step from a state with `l.quit` closed
leads to a state with `l.quit` closed; the steps of the goroutines and calls
of `Accept` leave `l.quit` as it is; and a call of `Close` returns without
panicking, leaves `l.quit` closed, and executes `close(l.quit)` exactly when
`l.quit` was open. -/
theorem shutdown_signal_raised_once (s : State) (h : Reachable s) :
    s.panicked = false
      ∧ s.quitCloses ≤ 1
      ∧ (s.quitCloses = 1 ↔ s.l.quit = true)
      ∧ (∀ a s1, s.step a = some s1 → s.l.quit = true → s1.l.quit = true)
      ∧ (∀ i r s1, s.run i r = some s1 →
          s1.l.quit = s.l.quit ∧ s1.quitCloses = s.quitCloses)
      ∧ (∀ r i out, s.call Accept [(r, i)] = some out →
          out.2.2.l.quit = s.l.quit ∧ out.2.2.quitCloses = s.quitCloses)
      ∧ (∀ rs out, s.call Close rs = some out →
          out.1 ≠ none ∧ out.2.2.panicked = false ∧ out.2.2.l.quit = true
            ∧ ((∃ e ∈ out.2.1, e.op = .closeQuit) ↔ s.l.quit = false)
            ∧ out.2.2.quitCloses = s.quitCloses + (if s.l.quit then 0 else 1)) := by
  have hinv := Reachable.inv s h
  have hc := hinv.closes
  refine ⟨hinv.running, ?_, ?_, ?_, ?_, ?_, ?_⟩
  · rw [hc]
    split <;> simp
  · rw [hc]
    cases s.l.quit <;> simp
  · intro a s1 hs
    exact (State.Inv.step_inv s s1 a hinv hs).2.1
  · intro i r s1 hs
    obtain ⟨h1, h2, _⟩ := State.Inv.run_inv s s1 i r hinv hs
    refine ⟨h2, ?_⟩
    rw [h1.closes, hc, h2]
  · intro r i out hs
    obtain ⟨h1, h2⟩ := State.Inv.accept_inv s r i out hinv hs
    refine ⟨by rw [h2], ?_⟩
    rw [h1.closes, hc, h2]
  · intro rs out hs
    obtain ⟨h1, h2, _⟩ := State.Inv.close_inv s rs out hinv hs
    obtain ⟨r2, _, hret, hcase⟩ := State.call_Close s rs out hinv.running hs
    refine ⟨by simp [hret], h1.running, h2, ?_, ?_⟩
    · rcases hcase with ⟨hq, hev, _⟩ | ⟨hq, hev, _⟩
      · simp [hev, hq]
      · simp [hev, hq]
    · rcases hcase with ⟨hq, _, hst⟩ | ⟨hq, _, hst⟩
      · simp [hst, hq]
      · simp [hst, hq]

/-- Witness of C10: the state `NewListener` returns, and a call of `Close`
there. -/
theorem shutdown_signal_raised_once_witness :
    (Reachable sampleState ∧ sampleState.step (.close [.dflt, .ok, .ok]) = some closedState)
    ∧ sampleState.panicked = false
    ∧ sampleState.quitCloses ≤ 1
    ∧ closedState.panicked = false
    ∧ closedState.quitCloses ≤ 1 :=
  ⟨⟨sampleState_reachable, rfl⟩,
   (shutdown_signal_raised_once sampleState sampleState_reachable).1,
   (shutdown_signal_raised_once sampleState sampleState_reachable).2.1,
   (shutdown_signal_raised_once closedState
      (Reachable.step sampleState closedState (.close [.dflt, .ok, .ok])
        sampleState_reachable rfl)).1,
   (shutdown_signal_raised_once closedState
      (Reachable.step sampleState closedState (.close [.dflt, .ok, .ok])
        sampleState_reachable rfl)).2.1⟩

/-- C2.  In a reachable state in which `l.quit` is closed and no handshake
goroutine is offering an outcome on `l.conns`, a call of `Accept` does not
block: it can return, and whenever it returns it returns the nil `net.Conn`
and the error "brontide connection closed", leaving the state as it is.  (An
outcome the accept loop is offering from `rejectConn` does not change this:
with `l.quit` closed no send on `l.conns` completes.) -/
theorem Accept_after_shutdown (s : State) (h : Reachable s) (hq : s.l.quit = true)
    (_ho : ∀ g ∈ s.goroutines, g.inFlight = true → g.offer = none) :
    s.call Accept [(.chose 1, 0)]
        = some (some (.nil, some ⟨"brontide connection closed"⟩), [⟨acceptOp, .chose 1⟩], s)
      ∧ ∀ r i out, s.call Accept [(r, i)] = some out →
          out.1 = some (.nil, some ⟨"brontide connection closed"⟩) ∧ out.2.2 = s := by
  have hinv := Reachable.inv s h
  constructor
  · rw [Accept_eq]
    have he : Op.enabled s.l acceptOp (.chose 1) = true := by
      simp [Op.enabled, Comm.ready, hq]
    have hx : s.exec acceptOp (.chose 1) = some s := by
      cases s
      simp_all [State.exec, Op.valid, Op.effect, Comm.apply, Op.spawned]
    simp only [State.call, hx, hinv.running, Bool.false_eq_true, ↓reduceIte]
    rfl
  · intro r i out hs
    rcases State.call_Accept s r i out hinv.running hs with ⟨m, _, hh, _, _⟩ | ⟨_, _, rfl⟩
    · obtain ⟨_, _, hopen, _⟩ := State.Inv.handoff_inv s _ i m hinv hh
      rw [hq] at hopen
      exact absurd hopen (by simp)
    · exact ⟨rfl, rfl⟩

/-- Witness of C2: the state `loopOfferingState`, in which `l.quit` is closed,
there is no handshake goroutine, and the accept loop is offering the error of
`l.tcp.Accept()` from `rejectConn`. -/
theorem Accept_after_shutdown_witness :
    (Reachable loopOfferingState ∧ loopOfferingState.l.quit = true
      ∧ (∀ g ∈ loopOfferingState.goroutines, g.inFlight = true → g.offer = none)
      ∧ loopOfferingState.goroutines.map Goroutine.offer
          = [some ⟨none, some ⟨"use of closed network connection"⟩⟩])
    ∧ loopOfferingState.call Accept [(.chose 1, 0)]
        = some (some (.nil, some ⟨"brontide connection closed"⟩), [⟨acceptOp, .chose 1⟩],
            loopOfferingState)
    ∧ (loopOfferingState.call Accept
        [(.recvd 0 ⟨none, some ⟨"use of closed network connection"⟩⟩, 0)]).isNone = true :=
  ⟨⟨loopOfferingState_reachable, rfl, by decide, by decide⟩,
   (Accept_after_shutdown loopOfferingState loopOfferingState_reachable rfl (by decide)).1,
   by decide⟩

/-- C1, as the code has it.  A call of `Close` made after an earlier call of
`Close` has returned, whatever steps the listener took in between, does not
panic and does not execute `close(l.quit)`; it finds `l.quit` closed, calls
`l.tcp.Close()` again, and returns the error that call returns; the state is
left as it was.  Such a call can always be made. -/
theorem second_Close (s : State) (h : Reachable s) (rs1 : List (Resp × Nat))
    (out1 : Option error × List Event × State) (h1 : s.call Close rs1 = some out1)
    (as : List Action) (s2 : State) (hsteps : out1.2.2.steps as = some s2) :
    (∀ e, s2.call Close [(.chose 0, 0), (.err e, 0)]
        = some (some (some e), [⟨pollQuitOp, .chose 0⟩, ⟨.tcpClose, .err e⟩], s2))
      ∧ ∀ rs2 out2, s2.call Close rs2 = some out2 →
          ∃ e, out2.1 = some (some e)
            ∧ out2.2.1 = [⟨pollQuitOp, .chose 0⟩, ⟨.tcpClose, .err e⟩]
            ∧ out2.2.2 = s2 := by
  have hinv := Reachable.inv s h
  obtain ⟨hinv1, hq1, ht1⟩ := State.Inv.close_inv s rs1 out1 hinv h1
  obtain ⟨hinv2, hq2, ht2⟩ := State.Inv.steps_inv _ s2 as hinv1 hsteps
  have hq := hq2 hq1
  have ht := ht2 ht1
  have hp := hinv2.running
  have hself : ({ s2 with l := { s2.l with tcpClosed := true } } : State) = s2 := by
    rcases s2 with ⟨⟨a, b, c, d, e, f⟩, p, q, gs⟩
    simp only at ht
    subst ht
    rfl
  constructor
  · intro e
    rw [Close_eq]
    have hx1 : s2.exec pollQuitOp (.chose 0) = some s2 := by
      rcases s2 with ⟨⟨a, b, c, d, e, f⟩, p, q, gs⟩
      simp only at hq hp
      subst hq hp
      simp [State.exec, Op.valid, Op.enabled, Comm.ready, Op.effect, Comm.apply, Op.spawned]
    have hx2 : s2.exec .tcpClose (.err e) = some s2 := by
      rcases s2 with ⟨⟨a, b, c, d, e, f⟩, p, q, gs⟩
      simp only at ht hp
      subst ht hp
      simp [State.exec, Op.valid, Op.enabled, Op.effect, Op.spawned]
    simp only [State.call, hx1, hx2, hp, Bool.false_eq_true, ↓reduceIte]
    rfl
  · intro rs2 out2 h2
    obtain ⟨r2, hr2, hret, hcase⟩ := State.call_Close s2 rs2 out2 hp h2
    rcases hr2 with ⟨_, hopen⟩ | ⟨e, rfl⟩
    · rw [ht] at hopen
      exact absurd hopen (by simp)
    · rcases hcase with ⟨hq0, _, _⟩ | ⟨_, hev, hst⟩
      · rw [hq] at hq0
        exact absurd hq0 (by simp)
      · exact ⟨e, hret, hev, by rw [hst, hself]⟩

/-- Witness of C1 as amended: two calls of `Close` on a new listener. -/
theorem second_Close_witness :
    (Reachable sampleState
      ∧ sampleState.call Close [(.dflt, 0), (.ok, 0), (.ok, 0)]
          = some (some none,
              [⟨pollQuitOp, .dflt⟩, ⟨.closeQuit, .ok⟩, ⟨.tcpClose, .ok⟩], closedState)
      ∧ closedState.steps [] = some closedState)
    ∧ closedState.call Close
          [(.chose 0, 0), (.err ⟨"use of closed network connection"⟩, 0)]
        = some (some (some ⟨"use of closed network connection"⟩),
            [⟨pollQuitOp, .chose 0⟩, ⟨.tcpClose, .err ⟨"use of closed network connection"⟩⟩],
            closedState) :=
  ⟨⟨sampleState_reachable, rfl, rfl⟩,
   (second_Close sampleState sampleState_reachable [(.dflt, 0), (.ok, 0), (.ok, 0)]
      (some none, [⟨pollQuitOp, .dflt⟩, ⟨.closeQuit, .ok⟩, ⟨.tcpClose, .ok⟩], closedState)
      rfl [] closedState rfl).1 ⟨"use of closed network connection"⟩⟩

/-- C1 as stated fails.  On a new listener a first call of `Close` returns
nil; a second call then calls `l.tcp.Close()` again and returns its error,
and it cannot return nil, whether it takes the `case <-l.quit` or the
`default` of its `select`. -/
theorem second_Close_returns_error :
    sampleState.call Close [(.dflt, 0), (.ok, 0), (.ok, 0)]
        = some (some none, [⟨pollQuitOp, .dflt⟩, ⟨.closeQuit, .ok⟩, ⟨.tcpClose, .ok⟩],
            closedState)
      ∧ (closedState.call Close
            [(.chose 0, 0), (.err ⟨"use of closed network connection"⟩, 0)]).map
          (fun x => (x.1, x.2.1))
        = some (some (some ⟨"use of closed network connection"⟩),
            [⟨pollQuitOp, .chose 0⟩, ⟨.tcpClose, .err ⟨"use of closed network connection"⟩⟩])
      ∧ (closedState.call Close [(.chose 0, 0), (.ok, 0)]).isNone = true
      ∧ (closedState.call Close [(.dflt, 0), (.ok, 0), (.ok, 0)]).isNone = true :=
  ⟨rfl, by decide, by decide, by decide⟩

/-! ### The log of a goroutine of the listener is a run of its code -/

theorem Prog.run_snoc {α : Type} (rs : List Resp) :
    ∀ (p q : Prog α) (log : List Event) (o : Op) (r : Resp),
      p.run rs = some (log, q) → q.head = some o → o.valid r = true →
      p.run (rs ++ [r]) = some (log ++ [⟨o, r⟩], q.next r) := by
  induction rs with
  | nil =>
    intro p q log o r h hh hv
    simp only [Prog.run, Option.some.injEq, Prod.mk.injEq] at h
    obtain ⟨rfl, rfl⟩ := h
    cases p with
    | ret a => simp [Prog.head] at hh
    | vis o1 k =>
      simp only [Prog.head, Option.some.injEq] at hh
      subst hh
      simp [Prog.run, hv, Prog.next]
  | cons r0 rs ih =>
    intro p q log o r h hh hv
    cases p with
    | ret a => simp [Prog.run] at h
    | vis o1 k =>
      simp only [Prog.run] at h
      split at h
      · rename_i hv0
        cases hk : (k r0).run rs with
        | none => simp [hk] at h
        | some x =>
          obtain ⟨es, p1⟩ := x
          simp only [hk, Option.some.injEq, Prod.mk.injEq] at h
          obtain ⟨rfl, rfl⟩ := h
          have := ih (k r0) p1 es o r hk hh hv
          simp [Prog.run, hv0, this]
      · simp at h

theorem Prog.run_valid {α : Type} (rs : List Resp) :
    ∀ (p q : Prog α) (log : List Event), p.run rs = some (log, q) →
      ∀ e ∈ log, e.op.valid e.resp = true := by
  induction rs with
  | nil =>
    intro p q log h
    simp only [Prog.run, Option.some.injEq, Prod.mk.injEq] at h
    obtain ⟨rfl, _⟩ := h
    simp
  | cons r0 rs ih =>
    intro p q log h
    cases p with
    | ret a => simp [Prog.run] at h
    | vis o1 k =>
      simp only [Prog.run] at h
      split at h
      · rename_i hv0
        cases hk : (k r0).run rs with
        | none => simp [hk] at h
        | some x =>
          obtain ⟨es, p1⟩ := x
          simp only [hk, Option.some.injEq, Prod.mk.injEq] at h
          obtain ⟨rfl, rfl⟩ := h
          intro e he
          rcases List.mem_cons.1 he with rfl | he
          · exact hv0
          · exact ih (k r0) p1 es hk e he
      · simp at h

theorem Prog.exec_of_run {α : Type} (rs : List Resp) :
    ∀ (p q : Prog α) (log : List Event) (a : α) (env : Nat → Resp) (n : Nat),
      p.run rs = some (log, q) → q.result = some a →
      (∀ i, i < rs.length → env (n + i) = rs.getD i .ok) →
      p.exec env n = (log, a) := by
  induction rs with
  | nil =>
    intro p q log a env n h hres _
    simp only [Prog.run, Option.some.injEq, Prod.mk.injEq] at h
    obtain ⟨rfl, rfl⟩ := h
    cases p with
    | ret b =>
      simp only [Prog.result, Option.some.injEq] at hres
      subst hres
      rfl
    | vis o k => simp [Prog.result] at hres
  | cons r0 rs ih =>
    intro p q log a env n h hres henv
    cases p with
    | ret b => simp [Prog.run] at h
    | vis o1 k =>
      simp only [Prog.run] at h
      split at h
      · cases hk : (k r0).run rs with
        | none => simp [hk] at h
        | some x =>
          obtain ⟨es, p1⟩ := x
          simp only [hk, Option.some.injEq, Prod.mk.injEq] at h
          obtain ⟨rfl, rfl⟩ := h
          have h0 : env n = r0 := by simpa using henv 0 (by simp)
          have := ih (k r0) p1 es a env (n + 1) hk hres (by
            intro i hi
            have := henv (i + 1) (by simpa using hi)
            simpa [Nat.add_assoc, Nat.add_comm 1 i] using this)
          simp [Prog.exec, h0, this]
      · simp at h

theorem doHandshake_congr (l l1 : Listener) (c : RawConn)
    (h1 : l1.localStatic = l.localStatic) (h2 : l1.passphrase = l.passphrase)
    (h3 : l1.authData = l.authData) : doHandshake l1 c = doHandshake l c := by
  simp only [doHandshake, h1, h2, h3]

theorem Op.effect_statics (o : Op) (l : Listener) (r : Resp) :
    (o.effect l r).localStatic = l.localStatic ∧ (o.effect l r).passphrase = l.passphrase
      ∧ (o.effect l r).authData = l.authData := by
  cases o with
  | select cs d =>
    cases r with
    | chose i =>
      simp only [Op.effect]
      cases cs[i]? with
      | none => exact ⟨rfl, rfl, rfl⟩
      | some c => cases c <;> exact ⟨rfl, rfl, rfl⟩
    | _ => exact ⟨rfl, rfl, rfl⟩
  | comm c => cases c <;> exact ⟨rfl, rfl, rfl⟩
  | _ => cases r <;> exact ⟨rfl, rfl, rfl⟩

theorem Goroutine.Linked.congr (l l1 : Listener) (g : Goroutine)
    (h1 : l1.localStatic = l.localStatic) (h2 : l1.passphrase = l.passphrase)
    (h3 : l1.authData = l.authData) (h : g.Linked l) : g.Linked l1 := by
  rcases g with ⟨code, lg⟩
  cases code with
  | listen p => trivial
  | handshake c p =>
    simp only [Goroutine.Linked] at h ⊢
    rw [doHandshake_congr l l1 c h1 h2 h3]
    exact h

theorem Goroutine.Linked.advance_linked (l : Listener) (g : Goroutine) (o : Op) (r : Resp)
    (h : g.Linked l) (hh : g.code.head = some o) (hv : o.valid r = true) :
    (g.advance o r).Linked l := by
  rcases g with ⟨code, lg⟩
  cases code with
  | listen p =>
    have hcode : ∃ q, (Code.listen p).next r = .listen q := by
      simp only [Code.next]
      split
      · exact ⟨_, rfl⟩
      · exact ⟨_, rfl⟩
    obtain ⟨q, hq⟩ := hcode
    simp only [Goroutine.advance, Goroutine.Linked, hq]
  | handshake c p =>
    obtain ⟨rs, hrs⟩ := h
    exact ⟨rs ++ [r], Prog.run_snoc rs _ _ _ o r hrs hh hv⟩

theorem linked_set (gs : List Goroutine) (l : Listener) (i : Nat) (g1 : Goroutine)
    (h : ∀ g ∈ gs, g.Linked l) (h1 : g1.Linked l) : ∀ g ∈ gs.set i g1, g.Linked l := by
  intro g hg
  rcases List.mem_or_eq_of_mem_set hg with hg | rfl
  · exact h g hg
  · exact h1

theorem linked_step (s s1 : State) (a : Action) (hinv : s.Inv)
    (hl : ∀ g ∈ s.goroutines, g.Linked s.l) (h : s.step a = some s1) :
    ∀ g ∈ s1.goroutines, g.Linked s1.l := by
  simp only [State.step, hinv.running, Bool.false_eq_true, ↓reduceIte] at h
  cases a with
  | run i r =>
    obtain ⟨g, o, hg, hh, hv, _, rfl⟩ := State.run_eq s s1 i r h
    obtain ⟨e1, e2, e3⟩ := Op.effect_statics o s.l r
    have hgm : g ∈ s.goroutines := List.getElem?_mem hg
    have hall : ∀ g1 ∈ s.goroutines ++ o.spawned s.l, g1.Linked (o.effect s.l r) := by
      intro g1 hg1
      rcases List.mem_append.1 hg1 with hg1 | hg1
      · exact (hl g1 hg1).congr s.l _ g1 e1 e2 e3
      · cases o with
        | go c =>
          simp only [Op.spawned, List.mem_singleton] at hg1
          subst hg1
          exact ⟨[], rfl⟩
        | _ => simp [Op.spawned] at hg1
    exact linked_set _ _ i _ hall
      (((hl g hgm).advance_linked s.l g o r hh hv).congr s.l _ _ e1 e2 e3)
  | accept r i =>
    simp only [Option.map_eq_some'] at h
    obtain ⟨out, hout, rfl⟩ := h
    rcases State.call_Accept s r i out hinv.running hout with ⟨m, _, hh, _, _⟩ | ⟨_, _, rfl⟩
    · obtain ⟨g, o, r1, _, hg, hhd, ho, hs2⟩ := State.handoff_eq s _ i m hh
      rw [hs2]
      have hgm : g ∈ s.goroutines := List.getElem?_mem hg
      exact linked_set _ _ i _ hl
        ((hl g hgm).advance_linked s.l g o r1 hhd (Op.offer_valid o r1 m ho))
    · exact hl
  | close rs =>
    simp only [Option.map_eq_some'] at h
    obtain ⟨out, hout, rfl⟩ := h
    obtain ⟨r2, _, _, hcase⟩ := State.call_Close s _ out hinv.running hout
    rcases hcase with ⟨_, _, hs2⟩ | ⟨_, _, hs2⟩
    · rw [hs2]
      intro g hg
      exact (hl g hg).congr s.l _ g rfl rfl rfl
    · rw [hs2]
      intro g hg
      exact (hl g hg).congr s.l _ g rfl rfl rfl

theorem Reachable.linked (s : State) (h : Reachable s) : ∀ g ∈ s.goroutines, g.Linked s.l := by
  induction h with
  | init s h =>
    obtain ⟨pp, ls, la, ad, h⟩ := h
    simp only [NewListener, foldl_sendSema, List.length_range, Except.ok.injEq] at h
    subst h
    intro g hg
    simp only [List.mem_singleton] at hg
    subst hg
    trivial
  | step s s1 a hr hstep ih => exact linked_step s s1 a (Reachable.inv s hr) ih hstep

/-- In a reachable state, the log of a handshake goroutine that has returned
is the log of a run of `doHandshake` on its connection, the results of its
operations fitting them: what is proved of the runs `Prog.exec` of
`doHandshake` holds of the handshake goroutines of the listener. -/
theorem handshake_goroutine_log (s : State) (h : Reachable s) (g : Goroutine)
    (hg : g ∈ s.goroutines) (c : RawConn) (p : Prog Unit) (hc : g.code = .handshake c p)
    (hret : p.head = none) :
    ∃ env : Nat → Resp, ((doHandshake s.l c).exec env 0).1 = g.log
      ∧ ∀ e ∈ ((doHandshake s.l c).exec env 0).1, e.op.valid e.resp = true := by
  have hl := Reachable.linked s h g hg
  rcases g with ⟨code, lg⟩
  simp only at hc
  subst hc
  obtain ⟨rs, hrs⟩ := hl
  have hres : p.result = some () := by
    cases p with
    | ret a => rfl
    | vis o k => simp [Prog.head] at hret
  have hx := Prog.exec_of_run rs _ _ _ () (envOf rs) 0 hrs hres (by
    intro i _
    simp [envOf])
  refine ⟨envOf rs, by rw [hx], ?_⟩
  rw [hx]
  exact Prog.run_valid rs _ _ _ hrs

end Mailbox
